import Mathlib

/-!
# Verification of the repl-talk AI conversation orchestrator

A shallow embedding of the core of the repl-talk repository (the AI client
in `src/ai-client.js`: history sanitizer, tool-call executor, conversation
orchestrator and HTML answer extractor, together with the pieces of
`src/result-handler.js` and `src/app.js` they interact with), with proofs
about the embedded definitions.

Modelling conventions, chosen once for the whole file:
* JavaScript strings are Lean `String`s; `null`/`undefined` fields are
  `Option` with `none`; string truthiness (`if (s)`) is `s ≠ ""` on
  `some s` and false on `none`; number truthiness treats `0` as falsy;
  arrays are truthy even when empty.
* JS object-key lookup on the dictionaries built by the sanitizer is
  modelled as exact key membership in a list (the `Object.prototype`
  inheritance chain is outside the model; it does not change which
  messages the sanitizer keeps, only turns some legitimately paired ids
  such as "toString" into drops).
* `JSON.stringify`/`JSON.parse` round-trips on tool-message content are
  modelled by storing the structured payload directly; content that is a
  plain text string is modelled as not JSON-parseable.
* The `arguments` string of a tool call is abstracted by the result of
  `JSON.parse` on it: either `malformed` (the parse throws) or a parsed
  object with an optional `code_string` field.
* Asynchronous callback resolution is modelled sequentially: the
  callbacks of the tool calls of one assistant message resolve in order,
  each one completely before the next starts, which is one legal
  scheduling of the Node event loop (and the only one when the injected
  eval callback resolves synchronously).
-/

/-- A single validation error reported by the code validator
(`code-validator.js` produces objects with these fields). -/
structure VError where
  level : String
  message : String
  row : Nat
  col : Nat
deriving DecidableEq, Repr

/-- The duck-typed `errorDetails` blobs built in `app.js` (validation path)
and `result-handler.js` (`formatForVisualization`); every field optional,
as in the JS object literals. -/
structure ErrorDetails where
  message : Option String := none
  isRetryable : Option Bool := none
  context : Option String := none
  hint : Option String := none
  validationErrors : Option (List VError) := none
deriving DecidableEq, Repr

/-- The duck-typed result objects flowing out of the code executor,
`serializeResult` and `formatForVisualization`, with every field optional
(JS objects with optional keys). `type` is the `result.type` string
(`"error"` when the evaluation or validation failed); `data` is the field
name used by `formatForVisualization` for the value. -/
structure JsResult where
  type : Option String := none
  value : Option String := none
  data : Option String := none
  raw : Option String := none
  stdout : Option String := none
  stderr : Option String := none
  error : Option String := none
  logs : Option (List String) := none
  executionTime : Option Nat := none
  errorDetails : Option ErrorDetails := none
  validationErrors : Option (List VError) := none
deriving DecidableEq, Repr

/-- The JSON object serialized into a tool message's `content` by
`handleToolCall` (`ai-client.js`). Fields that a given branch of
`handleToolCall` does not write stay `none` (absent/null in JSON). -/
structure ToolPayload where
  status : Option String := none
  error : Option String := none
  message : Option String := none
  errorDetails : Option ErrorDetails := none
  validationErrors : Option (List VError) := none
  stdout : Option String := none
  stderr : Option String := none
  logs : List String := []
  executionTime : Option Nat := none
  result : Option JsResult := none
  raw : Option String := none
deriving DecidableEq, Repr

/-- Message content: either plain text (user/assistant messages) or the
JSON-stringified tool payload (tool messages). The `payload` constructor
models a string that `JSON.parse` turns back into the structured value;
`text` models content that is not valid JSON. -/
inductive Content where
  | text (s : String)
  | payload (p : ToolPayload)
deriving DecidableEq, Repr

/-- The result of `JSON.parse(toolCall.function.arguments)`: the parse
either throws (`malformed`, carrying the raw string) or yields an object
whose `code_string` field may be absent. -/
inductive JsArgs where
  | malformed (s : String)
  | parsed (code_string : Option String)
deriving DecidableEq, Repr

/-- A tool call issued by the LLM: `{id, function: {name, arguments}}`. -/
structure ToolCall where
  id : String
  fname : String
  args : JsArgs
deriving DecidableEq, Repr

/-- A conversation-history message. `role` is the raw JS string; optional
fields are present only on the message kinds that carry them, exactly as
in the JS objects. -/
structure Message where
  role : String
  content : Option Content := none
  tool_calls : Option (List ToolCall) := none
  tool_call_id : Option String := none
  name : Option String := none
deriving DecidableEq, Repr

/-- JS string truthiness of an optional string: `undefined`/`null` and the
empty string are falsy. -/
def truthyStr : Option String → Bool
  | some s => s != ""
  | none => false

/-- `msg.tool_calls && msg.tool_calls.length > 0`: a present, non-empty
tool-call list (an empty array is truthy in JS but fails the length
check). -/
def hasNonemptyCalls (m : Message) : Bool :=
  match m.tool_calls with
  | some (_ :: _) => true
  | _ => false

/-- The ids collected into `toolCallIds` from an assistant message's
`tool_calls` (`sanitizeHistory`, ai-client.js:374-377). -/
def callIds (m : Message) : List String :=
  (m.tool_calls.getD []).map (·.id)


/-!
## History sanitizer (`sanitizeHistory`, ai-client.js:352-414)

The JS function is one outer `while` loop over the history with an inner
`while` loop that consumes the run of tool messages following an
assistant message with tool calls. We embed it as two mutually recursive
functions: `sanOut` is the outer loop, `sanIn ids seen` is the inner loop
with `ids` the pending `toolCallIds` of the heading assistant message and
`seen` the `includedToolCallIds` accumulator. A non-tool message makes
the JS inner loop exit and the outer loop re-examine the same message,
so `sanIn`'s non-tool branches repeat the outer classification. -/
mutual

def sanOut : List Message → List Message
  | [] => []
  | m :: rest =>
    if m.role = "user" ∨ (m.role = "assistant" ∧ m.tool_calls = none) then
      m :: sanOut rest
    else if m.role = "assistant" ∧ hasNonemptyCalls m = true then
      m :: sanIn (callIds m) [] rest
    else
      -- orphaned tool message, or unexpected role: dropped
      sanOut rest

def sanIn (ids seen : List String) : List Message → List Message
  | [] => []
  | m :: rest =>
    if m.role = "tool" then
      -- inner while loop, ai-client.js:383-399
      if truthyStr m.tool_call_id = true ∧ (m.tool_call_id.getD "") ∈ ids then
        if (m.tool_call_id.getD "") ∈ seen then
          sanIn ids seen rest          -- duplicate: dropped with a warning
        else
          m :: sanIn ids ((m.tool_call_id.getD "") :: seen) rest
      else
        sanIn ids seen rest            -- orphan inside the run: dropped
    else if m.role = "user" ∨ (m.role = "assistant" ∧ m.tool_calls = none) then
      m :: sanOut rest
    else if m.role = "assistant" ∧ hasNonemptyCalls m = true then
      m :: sanIn (callIds m) [] rest
    else
      sanOut rest

end

/-- `sanitizeHistory(history)`: the empty-input guard returns `[]`, which
coincides with `sanOut []`. -/
def sanitizeHistory (h : List Message) : List Message :=
  sanOut h

/-!
### Pairing invariant

`pairingOut`/`pairingIn` walk a message list checking that every tool
message sits in a run immediately preceded by an assistant message whose
`tool_calls` contain its `tool_call_id`, with no id repeated inside the
run; any non-tool message ends the current run. -/
mutual

def pairingOut : List Message → Bool
  | [] => true
  | m :: rest =>
    if m.role = "tool" then false      -- tool message with no heading assistant
    else if m.role = "assistant" ∧ hasNonemptyCalls m = true then
      pairingIn (callIds m) [] rest
    else
      pairingOut rest

def pairingIn (ids seen : List String) : List Message → Bool
  | [] => true
  | m :: rest =>
    if m.role = "tool" then
      if m.tool_call_id ≠ none ∧ (m.tool_call_id.getD "") ∈ ids ∧
          (m.tool_call_id.getD "") ∉ seen then
        pairingIn ids ((m.tool_call_id.getD "") :: seen) rest
      else false
    else if m.role = "assistant" ∧ hasNonemptyCalls m = true then
      pairingIn (callIds m) [] rest
    else
      pairingOut rest

end

/-!
The exact shape of sanitizer output, used to prove idempotence:
`okOut l` holds iff `sanOut l = l` (no orphaned or duplicate tool
messages, no unexpected roles, no empty-`tool_calls` assistant
messages). -/
mutual

def okOut : List Message → Bool
  | [] => true
  | m :: rest =>
    if m.role = "user" ∨ (m.role = "assistant" ∧ m.tool_calls = none) then
      okOut rest
    else if m.role = "assistant" ∧ hasNonemptyCalls m = true then
      okIn (callIds m) [] rest
    else false

def okIn (ids seen : List String) : List Message → Bool
  | [] => true
  | m :: rest =>
    if m.role = "tool" then
      if truthyStr m.tool_call_id = true ∧ (m.tool_call_id.getD "") ∈ ids ∧
          (m.tool_call_id.getD "") ∉ seen then
        okIn ids ((m.tool_call_id.getD "") :: seen) rest
      else false
    else if m.role = "user" ∨ (m.role = "assistant" ∧ m.tool_calls = none) then
      okOut rest
    else if m.role = "assistant" ∧ hasNonemptyCalls m = true then
      okIn (callIds m) [] rest
    else false

end

/-!
## Answer extractor (`extractHTML`, ai-client.js:589-665, and `isHTML`,
result-handler.js:472-484)

The JS functions are regex heuristics over strings. We embed them as
executable functions over `List Char`, translating each regex by its
engine semantics (leftmost match; alternation in order; `.` does not
match line terminators; lookahead is zero-width). `String.trim` in JS
removes Unicode whitespace; we model the ASCII whitespace characters,
which cover every string these heuristics are applied to. -/

/-- Whitespace for `trim` and the `\s` class (ASCII fragment). -/
def isWS (c : Char) : Bool :=
  c == ' ' || c == '\t' || c == '\n' || c == '\r' || c == '\x0b' || c == '\x0c'

/-- Line terminators that `.` does not match in a JS regex. -/
def isNL (c : Char) : Bool :=
  c == '\n' || c == '\r' || c == ' ' || c == ' '

/-- `String.prototype.trim`. -/
def trimL (l : List Char) : List Char :=
  ((l.dropWhile isWS).reverse.dropWhile isWS).reverse

/-- Case-insensitive anchored match of `pat` against a prefix of `s`
(the `i` flag on an alternation of literal characters). -/
def matchAtCI : List Char → List Char → Bool
  | [], _ => true
  | _ :: _, [] => false
  | p :: ps, c :: cs => (p.toLower == c.toLower) && matchAtCI ps cs

/-- Index of the leftmost case-insensitive occurrence of `pat`. -/
def findCI (pat : List Char) : List Char → Option Nat
  | [] => if matchAtCI pat [] then some 0 else none
  | c :: cs =>
    if matchAtCI pat (c :: cs) then some 0
    else (findCI pat cs).map (· + 1)

/-- Case-sensitive substring test (`String.prototype.includes`). -/
def hasSub : List Char → List Char → Bool
  | hay, pat =>
    if pat.isPrefixOf hay then true
    else match hay with
      | [] => false
      | _ :: rest => hasSub rest pat

def strContains (hay pat : String) : Bool :=
  hasSub hay.data pat.data

/-- The two tool-marker sentinel characters of
`/<[｜|][^>]*?[｜|]>/` and `/[｜▁]/` (ai-client.js:598-601). -/
def isBar (c : Char) : Bool := c == '｜' || c == '|'

/-- Lazy scan for the closing `[｜|]>` of a tool-call marker: succeeds at
the first bar followed by `>`, fails on a bare `>` (which `[^>]*?` cannot
consume). Returns the remainder after the marker. -/
def scanMarker : List Char → Option (List Char)
  | [] => none
  | c :: rest =>
    if isBar c = true ∧ rest.head? = some '>' then some rest.tail
    else if c = '>' then none
    else scanMarker rest

/-- Global replacement of `/<[｜|][^>]*?[｜|]>/g` by the empty string:
on a failed match at a `<` the scan restarts one character later, as the
regex engine does. Structural recursion on a fuel initialized to the
string length; every step consumes at least one character, so the fuel
never runs out. -/
def stripMarkersGo : Nat → List Char → List Char
  | 0, l => l
  | _ + 1, [] => []
  | fuel + 1, c :: rest =>
    if c = '<' then
      match rest with
      | [] => ['<']
      | d :: rest2 =>
        if isBar d = true then
          match scanMarker rest2 with
          | some rest' => stripMarkersGo fuel rest'
          | none => c :: stripMarkersGo fuel (d :: rest2)
        else c :: stripMarkersGo fuel (d :: rest2)
    else c :: stripMarkersGo fuel rest

def stripMarkers (l : List Char) : List Char :=
  stripMarkersGo l.length l

/-- Global replacement of `/[｜▁]/g` by the empty string. -/
def stripBars (l : List Char) : List Char :=
  l.filter (fun c => !(c == '｜' || c == '▁'))

/-- `\w` of a JS regex: ASCII letters, digits, underscore. -/
def wordChar (c : Char) : Bool := c.isAlpha || c.isDigit || c == '_'

/-- Length of the block-level tag name matched at the head of `l` by the
alternation `div|body|section|article|main|table|ul|ol|h[1-6]|p` (first
letters are pairwise distinct, so at most one alternative matches). -/
def blockNameLen (l : List Char) : Option Nat :=
  if matchAtCI "div".data l then some 3
  else if matchAtCI "body".data l then some 4
  else if matchAtCI "section".data l then some 7
  else if matchAtCI "article".data l then some 7
  else if matchAtCI "main".data l then some 4
  else if matchAtCI "table".data l then some 5
  else if matchAtCI "ul".data l then some 2
  else if matchAtCI "ol".data l then some 2
  else if (match l with
           | a :: b :: _ => (a.toLower == 'h') && ('1' ≤ b && b ≤ '6')
           | _ => false) then some 2
  else if matchAtCI "p".data l then some 1
  else none

/-- Leftmost match of
`/<(?:div|body|section|article|main|table|ul|ol|h[1-6]|p)[^>]*>[\s\S]*/i`:
a `<`, a block name, and some later `>` (the name is made of letters and
digits, so the first `>` after it satisfies `[^>]*>`). -/
def blockIdx : List Char → Option Nat
  | [] => none
  | c :: rest =>
    if (c == '<') && (match blockNameLen rest with
                      | some len => (rest.drop len).contains '>'
                      | none => false) then some 0
    else (blockIdx rest).map (· + 1)

/-- `'</' + tagName + '>'`, the pattern of the closing-tag search. -/
def closePat (tag : List Char) : List Char :=
  '<' :: '/' :: (tag ++ ['>'])

/-- Is there a case-insensitive occurrence of `pat` starting before any
line terminator? This is `(?=.*pat)` of a JS regex, whose `.` does not
cross newlines. -/
def sameLineOcc (pat : List Char) : List Char → Bool
  | [] => false
  | c :: rest =>
    if matchAtCI pat (c :: rest) then true
    else if isNL c then false
    else sameLineOcc pat rest

/-- Leftmost occurrence of `pat` that passes the negative lookahead
`(?!.*pat)`: no further occurrence on the same line. -/
def findQual (pat : List Char) : List Char → Option Nat
  | [] => none
  | c :: rest =>
    if matchAtCI pat (c :: rest) &&
        !(sameLineOcc pat (List.drop pat.length (c :: rest))) then some 0
    else (findQual pat rest).map (· + 1)

/-- Step 5 of the extractor (ai-client.js:625-644): from the block tag at
index `i`, take the matching closing tag selected by
`new RegExp('</' + tagName + '>(?!.*</' + tagName + '>)', 'i')`. -/
def blockExtract (t : List Char) (i : Nat) : List Char :=
  let htmlContent := trimL (t.drop i)
  match htmlContent with
  | '<' :: rest =>
    let tagName := rest.takeWhile wordChar
    if tagName = [] then htmlContent
    else
      match findQual (closePat tagName) htmlContent with
      | some o => trimL (htmlContent.take (o + (closePat tagName).length))
      | none => htmlContent
  | _ => htmlContent

/-- Leftmost match of `/<[a-z][a-z0-9]*[\s\S]*?>/i` (step 6): a `<`, an
ASCII letter, and some later `>`. -/
def firstTagIdx : List Char → Option Nat
  | [] => none
  | c :: rest =>
    if (c == '<') && (match rest.head? with
                      | some d => d.isAlpha
                      | none => false) && ((rest.drop 1).contains '>') then some 0
    else (firstTagIdx rest).map (· + 1)

/-- Anchored match of `<\/[a-z][a-z0-9]*>`; returns the full length of
the closing tag (greediness of `[a-z0-9]*` forces the first non-word
character to be the `>`). -/
def closingAt : List Char → Option Nat
  | '<' :: '/' :: c :: rest =>
    if c.isAlpha then
      let w := rest.takeWhile (fun d => d.isAlpha || d.isDigit)
      match (rest.drop w.length).head? with
      | some '>' => some (3 + w.length + 1)
      | _ => none
    else none
  | _ => none

/-- Index of the leftmost closing-tag occurrence. -/
def firstClosingIdx : List Char → Option Nat
  | [] => none
  | c :: rest =>
    if (closingAt (c :: rest)).isSome then some 0
    else (firstClosingIdx rest).map (· + 1)

/-- Start of the line containing index `o` of `l`. -/
def lineStartBefore (l : List Char) (o : Nat) : Nat :=
  match ((l.take o).reverse.findIdx? (fun c => isNL c)) with
  | some j => o - j
  | none => 0

/-- Length of the last closing-tag occurrence on the first line of `l`
(the greedy `.*` of `/.*(<\/[a-z][a-z0-9]*>)/i` selects the last
occurrence reachable without crossing a newline). -/
def lineClosLast : List Char → Option Nat
  | [] => none
  | c :: rest =>
    let later := if isNL c then none else lineClosLast rest
    match later with
    | some e => some e
    | none => closingAt (c :: rest)

/-- Step 6 of the extractor (ai-client.js:648-661). The JS code computes
the cut as `lastClosingTag.index + lastClosingTag[1].length`: the start
of the whole match (the first position from which a closing tag is
reachable on one line, i.e. the start of the line of the first closing
occurrence) plus the length of the captured group only. -/
def case6Extract (t : List Char) (i : Nat) : List Char :=
  let potentialHtml := t.drop i
  match firstClosingIdx potentialHtml with
  | none => trimL potentialHtml
  | some o =>
    let p := lineStartBefore potentialHtml o
    match lineClosLast (potentialHtml.drop p) with
    | some len => trimL (potentialHtml.take (p + len))
    | none => trimL potentialHtml

/-- `extractHTML(content)` (ai-client.js:589-665). -/
def extractHTML (content : Option String) : Option String :=
  match content with
  | none => none
  | some s =>
    if s = "" then none
    else
      let t := stripBars (stripMarkers (trimL s.data))
      if "<!DOCTYPE".data.isPrefixOf t ∨ "<html".data.isPrefixOf t then
        some (String.mk t)
      else
        match findCI "<!DOCTYPE".data t with
        | some i => some (String.mk (trimL (t.drop i)))
        | none =>
          match findCI "<html".data t with
          | some i => some (String.mk (trimL (t.drop i)))
          | none =>
            match blockIdx t with
            | some i => some (String.mk (blockExtract t i))
            | none =>
              match firstTagIdx t with
              | some i => some (String.mk (case6Extract t i))
              | none => none

/-- Modelled from the claim: index of the **last** case-insensitive
occurrence of `pat`. -/
def lastOccCI (pat : List Char) : List Char → Option Nat
  | [] => none
  | c :: rest =>
    match lastOccCI pat rest with
    | some i => some (i + 1)
    | none => if matchAtCI pat (c :: rest) then some 0 else none

/-- Modelled from the claim: the substring from the first block-level
tag to the last occurrence of the matching closing tag of the same tag
name, trimming trailing commentary. -/
def specBlockExtract (t : List Char) : Option (List Char) :=
  match blockIdx t with
  | none => none
  | some i =>
    let content := trimL (t.drop i)
    match content with
    | '<' :: rest =>
      let tagName := rest.takeWhile wordChar
      if tagName = [] then none
      else
        match lastOccCI (closePat tagName) content with
        | some o => some (trimL (content.take (o + (closePat tagName).length)))
        | none => none
    | _ => none

/-- One position of `/<\/?[a-z][a-z0-9]*[\s\S]*?>/i`: `<`, optional `/`,
a letter, and some later `>`. -/
def tagPatAt : List Char → Bool
  | '<' :: '/' :: c :: rest => c.isAlpha && (c :: rest).contains '>'
  | '<' :: c :: rest => c.isAlpha && rest.contains '>'
  | _ => false

/-- One position of `/<[a-z][a-z0-9]*[\s\S]*?(\/>|>)/i`. -/
def completeTagAt : List Char → Bool
  | '<' :: c :: rest => c.isAlpha && rest.contains '>'
  | _ => false

/-- The alternation of
`/<(html|head|body|div|span|p|table|ul|ol|h[1-6]|a|img|button|form|input)[\s>]/i`
(`h[1-6]` expanded); each alternative must be followed by whitespace or
`>`. -/
def structNames : List (List Char) :=
  ["html".data, "head".data, "body".data, "div".data, "span".data,
   "p".data, "table".data, "ul".data, "ol".data,
   "h1".data, "h2".data, "h3".data, "h4".data, "h5".data, "h6".data,
   "a".data, "img".data, "button".data, "form".data, "input".data]

def structAt : List Char → Bool
  | '<' :: rest =>
    structNames.any (fun name =>
      matchAtCI name rest &&
        (match (rest.drop name.length).head? with
         | some d => isWS d || d == '>'
         | none => false))
  | _ => false

/-- `regex.test(str)`: does any position match? -/
def scanB (f : List Char → Bool) : List Char → Bool
  | [] => f []
  | c :: rest => f (c :: rest) || scanB f rest

/-- `isHTML(str)` (result-handler.js:472-484). -/
def isHTML (s : String) : Bool :=
  (scanB tagPatAt s.data || scanB structAt s.data) && scanB completeTagAt s.data

/-!
## Result formatting and the evaluation callback
(`formatForVisualization`, result-handler.js:551-602;
`evalClojure`, app.js:115-186)
-/

/-- The pattern-based hints of `formatForVisualization`
(result-handler.js:572-583); `String.prototype.includes` is
case-sensitive. -/
def hintFor (e : String) : Option String :=
  if strContains e "IllegalArgumentException" then
    some "Type mismatch error. Check data types and conversions."
  else if strContains e "FileNotFoundException" || strContains e "No such file" then
    some "File or path not found. Verify the path exists."
  else if strContains e "ClassNotFoundException" || strContains e "Could not locate" then
    some "Missing dependency. Add proper require statement."
  else if strContains e "CompilerException" || strContains e "Syntax error" then
    some "Syntax error. Review Clojure syntax."
  else if strContains e "ArityException" then
    some "Wrong number of arguments. Check function signature."
  else none

/-- `formatForVisualization(result)`: builds a fresh object from a fixed
list of fields of `result` (`type`, `value`→`data`, `raw`, `stdout`,
`stderr`, `error`, `logs || []`, `executionTime`); on an error result it
installs a new `errorDetails`. Any other field of `result` — notably
`validationErrors` and the original `errorDetails` — is **not** carried
over. The trailing `switch` only decorates the `chart-data`/`table-data`/
`map` result types with visualization hints on fields never read by the
orchestrator; those types are outside this model. -/
def formatForVisualization (r : JsResult) : JsResult :=
  let base : JsResult :=
    { type := r.type, data := r.value, raw := r.raw, stdout := r.stdout,
      stderr := r.stderr, error := r.error, logs := some (r.logs.getD []),
      executionTime := r.executionTime }
  if r.type = some "error" ∧ truthyStr r.error = true then
    let ed : ErrorDetails :=
      { message := r.error, isRetryable := some true,
        context := some "Code execution failed. Analyze the error and generate corrected code.",
        hint := hintFor (r.error.getD "") }
    { base with errorDetails := some ed }
  else base

/-- The `validateResult` object of `code-validator.js` as consumed by
`evalClojure`. -/
structure ValidateResult where
  valid : Bool
  errors : List VError
  skipped : Bool := false
deriving DecidableEq, Repr

/-- The structured validation-error result built in `evalClojure`
(app.js:135-149) when the validator reports `valid: false`. -/
def validationErrorResult (errors : List VError) : JsResult :=
  { type := some "error",
    error := some ("Code validation failed:\n" ++
      String.intercalate "\n" (errors.map (fun e =>
        "Line " ++ toString e.row ++ ", Col " ++ toString e.col ++ ": " ++
          e.message ++ " (" ++ e.level ++ ")"))),
    validationErrors := some errors,
    errorDetails := some
      { message := some "Code validation detected errors before execution. Please fix the following issues:",
        validationErrors := some errors,
        hint := some "Review the validation errors and correct the code syntax, types, or structure." } }

/-- `evalClojure(codeString, callback)` (app.js:115-186), with the nREPL
connection, the validator and the executor abstracted as parameters. The
first component records whether `executeCode()` ran; the second is the
callback result (`Except.error` = `callback(err)`). The `executeCode`
path (nREPL eval, `serializeResult`, `formatForVisualization`) is the
black-box `execute`, which returns the already-formatted result. -/
def evalClojure (connected validationEnabled : Bool)
    (validate : String → Except String ValidateResult)
    (execute : String → Except String JsResult)
    (code : String) : Bool × Except String JsResult :=
  if connected = false then (false, .error "nREPL not connected")
  else if validationEnabled then
    match validate code with
    | .error _ =>
      -- validation infrastructure failed: warn and proceed to execution
      (true, execute code)
    | .ok vr =>
      if vr.valid = false then
        (false, .ok (formatForVisualization (validationErrorResult vr.errors)))
      else (true, execute code)
  else (true, execute code)

/-!
## Tool-call executor and conversation orchestrator
(`handleToolCall`, ai-client.js:499-582; `processAIResponse`,
ai-client.js:670-917; `continueConversation`, ai-client.js:922-970;
`sendMessage`, ai-client.js:975-1023)

The LLM endpoint is modelled by a script: a list of responses consumed
one per request; an exhausted script behaves as a transport failure.
-/

/-- The configuration slice the orchestrator reads. -/
structure Config where
  toolName : String
  systemPrompt : String
  codeModePromptTemplate : Option String := none
deriving DecidableEq, Repr

/-- What a `saveCallback` invocation received: a raw string (user and
assistant messages) or `JSON.stringify` of a whole tool message. -/
inductive SavedContent where
  | str (s : Option String)
  | toolJson (m : Message)
deriving DecidableEq, Repr

structure SaveEntry where
  role : String
  content : SavedContent
  toolCalls : Option (List ToolCall)
deriving DecidableEq, Repr

/-- The per-session client state (`createAIClient`), together with the
observable effects of its callbacks: `saved` records `saveCallback`
invocations, `statuses` records `statusCallback` invocations, `requests`
records the message lists handed to `makeRequest`. -/
structure Client where
  history : List Message := []
  inErrorRecovery : Bool := false
  iterationCount : Nat := 0
  maxIterations : Nat := 5
  saved : List SaveEntry := []
  statuses : List String := []
  requests : List (List Message) := []
deriving DecidableEq, Repr

/-- Resolution of `evalCallback(codeString, cb)`: `cbErr` is `cb(err)`,
`cbOk` is `cb(null, result)`. -/
inductive ExecOutcome where
  | cbErr (msg : String)
  | cbOk (r : JsResult)
deriving DecidableEq, Repr

/-- Result of `handleToolCall`: an uncaught synchronous exception
(`jsThrow`), `callback(err)` (`cbError`) or `callback(null, toolMessage)`
(`cbOk`). -/
inductive HTCResult where
  | jsThrow (e : String)
  | cbError (e : String)
  | cbOk (m : Message)
deriving DecidableEq, Repr

/-- `result.stdout || null` and friends: empty strings are falsy. -/
def jsOrNullStr (o : Option String) : Option String :=
  match o with
  | some "" => none
  | x => x

/-- `result.executionTime || null`: zero is falsy. -/
def jsOrNullNat (o : Option Nat) : Option Nat :=
  match o with
  | some 0 => none
  | x => x

/-- `handleToolCall(toolCall, callback)` (ai-client.js:499-582). The
`JSON.parse` of the arguments is not guarded: a malformed argument
string throws out of the function. -/
def handleToolCall (cfg : Config) (exec : Option String → ExecOutcome)
    (tc : ToolCall) : HTCResult :=
  if tc.fname = cfg.toolName then
    match tc.args with
    | .malformed s => .jsThrow ("Unexpected token in JSON: " ++ s)
    | .parsed codeString =>
      match exec codeString with
      | .cbErr errMsg =>
        if strContains errMsg "cancelled by user" then
          .cbError "USER_CANCELLED"
        else
          .cbOk { role := "tool", tool_call_id := some tc.id,
                  name := some cfg.toolName,
                  content := some (.payload
                    { error := some errMsg, status := some "execution_failed" }) }
      | .cbOk r =>
        if r.type = some "error" then
          let isValidationError : Bool :=
            match r.validationErrors with
            | some (_ :: _) => true
            | _ => false
          let errorMessage :=
            if isValidationError then
              "Code validation detected errors before execution. Please fix the validation errors and generate corrected code using eval_clojure again."
            else
              "The code execution failed with an error. Please analyze the error and generate corrected code using eval_clojure again."
          .cbOk { role := "tool", tool_call_id := some tc.id,
                  name := some cfg.toolName,
                  content := some (.payload
                    { status := some "error",
                      error := r.error,
                      message := some errorMessage,
                      errorDetails := some (r.errorDetails.getD {}),
                      validationErrors := r.validationErrors,
                      stdout := jsOrNullStr r.stdout,
                      stderr := jsOrNullStr r.stderr,
                      logs := r.logs.getD [],
                      executionTime := jsOrNullNat r.executionTime,
                      raw := jsOrNullStr r.raw }) }
        else
          .cbOk { role := "tool", tool_call_id := some tc.id,
                  name := some cfg.toolName,
                  content := some (.payload
                    { status := some "success", result := some r,
                      logs := r.logs.getD [],
                      executionTime := jsOrNullNat r.executionTime }) }
  else
    .cbOk { role := "tool", tool_call_id := some tc.id, name := some tc.fname,
            content := some (.payload
              { error := some ("Unknown tool: " ++ tc.fname) }) }

/-- The message of a response: `response.choices && response.choices[0]
&& response.choices[0].message`. -/
structure AIMsg where
  content : Option String := none
  tool_calls : Option (List ToolCall) := none
deriving DecidableEq, Repr

structure Choice where
  message : Option AIMsg := none
deriving DecidableEq, Repr

structure LLMResponse where
  choices : List Choice := []
deriving DecidableEq, Repr

def getMessage (resp : LLMResponse) : Option AIMsg :=
  match resp.choices with
  | [] => none
  | c :: _ => c.message

def hasNonemptyCallsAI (m : AIMsg) : Bool :=
  match m.tool_calls with
  | some (_ :: _) => true
  | _ => false

/-- The final response object handed to the caller when the assistant
message carries no tool calls (ai-client.js:874-916). -/
structure FinalResponse where
  content : Option String := none
  role : String := "assistant"
  type : Option String := none
  html : Option String := none
deriving DecidableEq, Repr

/-- The turn callback value: `Except.error` is `callback(err, null)`,
`Except.ok` is `callback(null, finalResponse)`. -/
abbrev TurnOutcome := Except String FinalResponse

/-- First callback invocation wins: the JS caller receives the first
`callback(...)`; later invocations from the same turn are recorded only
if no earlier one happened. -/
def firstSome (a b : Option TurnOutcome) : Option TurnOutcome :=
  match a with
  | some x => some x
  | none => b

/-- The `messages` array built for a request: system prompt (merged with
the code-mode template when configured) followed by the sanitized
history. -/
def mkMessages (cfg : Config) (st : Client) : List Message :=
  { role := "system",
    content := some (.text (cfg.systemPrompt ++
      (match cfg.codeModePromptTemplate with
       | some t => "\n\n" ++ t
       | none => ""))) } :: sanitizeHistory st.history

/-- The sequencing check of ai-client.js:753-768: the nearest preceding
assistant message must exist, have truthy `tool_calls`, and contain the
tool result's id. -/
def seqCheck (hist : List Message) (rid : String) : Bool :=
  match hist.reverse.find? (fun m => m.role == "assistant") with
  | some a => a.tool_calls.isSome && (a.tool_calls.getD []).any (fun c => c.id == rid)
  | none => false

/-- The duplicate scan of ai-client.js:782-795, walking the history
backwards: a tool message with the same id is a duplicate; the nearest
assistant message with (truthy) `tool_calls` stops the scan. Takes the
reversed history. -/
def dupScan (rid : String) : List Message → Bool
  | [] => false
  | m :: rest =>
    if m.role == "tool" && m.tool_call_id == some rid then true
    else if m.role == "assistant" && m.tool_calls.isSome then false
    else dupScan rid rest

/-- `JSON.parse(result.content)` failing: content present but not a
serialized payload (all tool messages built by `handleToolCall` carry
payload content, so this never fires for them). -/
def contentNotJson (m : Message) : Bool :=
  match m.content with
  | some (.text _) => true
  | _ => false

/-- The status field of the parsed tool content
(`toolResultContent && toolResultContent.status`). -/
def payloadStatus (m : Message) : Option String :=
  match m.content with
  | some (.payload p) => p.status
  | _ => none

/-- Result of the `message.tool_calls.forEach` loop of
`processAIResponse` (ai-client.js:711-870): final client state, how many
calls ran to completion, the fatal-error flag, and the first callback
invocation (if any) made from inside the loop. -/
structure LoopOut where
  st : Client
  completed : Nat
  hasError : Bool
  fo : Option TurnOutcome
deriving Repr

/-- The per-tool-call body of the `forEach` (sequential resolution). A
thrown exception aborts the remaining iterations; it is caught by the
`try` around `callback(null, jsonData)` in `makeRequest` and surfaces as
a `Failed to parse response` error. -/
def toolLoop (cfg : Config) (exec : Option String → ExecOutcome)
    (st : Client) (calls : List ToolCall) (total completed : Nat)
    (hasError : Bool) (fo : Option TurnOutcome) : LoopOut :=
  match calls with
  | [] => ⟨st, completed, hasError, fo⟩
  | tc :: rest =>
    match handleToolCall cfg exec tc with
    | .jsThrow e =>
      ⟨st, completed, hasError,
        firstSome fo (some (.error ("Failed to parse response: " ++ e)))⟩
    | .cbError e =>
      if e = "USER_CANCELLED" then
        -- remove the just-appended assistant message, if it is still last
        let st' := match st.history.getLast? with
          | some m =>
            if m.role = "assistant" then { st with history := st.history.dropLast }
            else st
          | none => st
        toolLoop cfg exec st' rest total completed hasError
          (firstSome fo (some (.error "Code execution cancelled by user")))
      else
        toolLoop cfg exec st rest total completed true (firstSome fo (some (.error e)))
    | .cbOk result =>
      if result.role ≠ "tool" then
        toolLoop cfg exec st rest total completed true
          (firstSome fo (some (.error "Invalid tool result format")))
      else if truthyStr result.tool_call_id = false then
        toolLoop cfg exec st rest total completed true
          (firstSome fo (some (.error "Tool result missing tool_call_id")))
      else
        let rid := result.tool_call_id.getD ""
        if seqCheck st.history rid = false then
          toolLoop cfg exec st rest total completed true
            (firstSome fo (some (.error "Tool message sequencing error")))
        else if contentNotJson result = true then
          toolLoop cfg exec st rest total completed true
            (firstSome fo (some (.error "Tool response content is not valid JSON")))
        else
          let isDup := dupScan rid st.history.reverse
          let st1 := if isDup = true then st
            else { st with history := st.history ++ [result] }
          let st2 := { st1 with saved := st1.saved ++ [(⟨"tool", .toolJson result, none⟩ : SaveEntry)] }
          if payloadStatus result = some "error" then
            let st3 :=
              if st2.inErrorRecovery = false then
                { st2 with
                    inErrorRecovery := true, iterationCount := 1,
                    statuses := st2.statuses ++
                      ["Code execution failed. AI is analyzing the error and generating a fix..."] }
              else
                { st2 with
                    iterationCount := st2.iterationCount + 1,
                    statuses := st2.statuses ++
                      ["AI is generating corrected code (attempt " ++
                        toString (st2.iterationCount + 1) ++ ")..."] }
            if st3.iterationCount > st3.maxIterations then
              let errorMsg := "Maximum iteration limit (" ++
                toString st3.maxIterations ++ ") reached. Unable to fix the error."
              let st4 := { st3 with
                statuses := st3.statuses ++ [errorMsg],
                inErrorRecovery := false, iterationCount := 0 }
              toolLoop cfg exec st4 rest total completed hasError
                (firstSome fo (some (.error errorMsg)))
            else
              toolLoop cfg exec st3 rest total (completed + 1) hasError fo
          else
            let st3 :=
              if st2.inErrorRecovery = true then
                { st2 with
                    inErrorRecovery := false, iterationCount := 0,
                    statuses := st2.statuses ++ ["Code executed successfully!"] }
              else st2
            toolLoop cfg exec st3 rest total (completed + 1) hasError fo

/-- `processAIResponse(response, modelType, callback)` followed, when all
tool calls complete without fatal error, by `continueConversation`,
which consumes the next scripted LLM response. Returns the client state,
the unconsumed script and the first callback invocation. -/
def processAIResponse (cfg : Config) (exec : Option String → ExecOutcome)
    (st : Client) (resp : LLMResponse) (script : List LLMResponse) :
    Client × List LLMResponse × Option TurnOutcome :=
  match getMessage resp with
  | none => (st, script, some (.error "Invalid AI response format"))
  | some message =>
    let assistantMsg : Message :=
      { role := "assistant", content := message.content.map Content.text,
        tool_calls := message.tool_calls }
    let st1 := { st with
      history := st.history ++ [assistantMsg],
      saved := st.saved ++ [(⟨"assistant", .str message.content, message.tool_calls⟩ : SaveEntry)] }
    if hasNonemptyCallsAI message = true then
      -- suppress commentary during error recovery (ai-client.js:697-705);
      -- note this runs after the saveCallback above
      let st2 :=
        if st1.inErrorRecovery = true ∧ truthyStr message.content = true then
          { st1 with history := st1.history.dropLast ++
              [{ assistantMsg with content := some (.text "") }] }
        else st1
      let calls := message.tool_calls.getD []
      let out := toolLoop cfg exec st2 calls calls.length 0 false none
      if out.completed = calls.length ∧ out.hasError = false then
        -- continueConversation (ai-client.js:922-970)
        let st3 := { out.st with requests := out.st.requests ++ [mkMessages cfg out.st] }
        match script with
        | [] => (st3, [], firstSome out.fo (some (.error "request failed")))
        | r :: rs =>
          let res := processAIResponse cfg exec st3 r rs
          (res.1, res.2.1, firstSome out.fo res.2.2)
      else (out.st, script, out.fo)
    else
      -- final response, no tool calls (ai-client.js:874-916)
      let st2 :=
        if st1.inErrorRecovery = true then
          { st1 with inErrorRecovery := false, iterationCount := 0 }
        else st1
      let extracted : Option String :=
        match message.content with
        | some c => if c ≠ "" then extractHTML (some c) else none
        | none => none
      let finalResponse : FinalResponse :=
        match extracted with
        | some h => { content := message.content, type := some "html", html := some h }
        | none =>
          if truthyStr message.content = true ∧ isHTML (message.content.getD "") = true then
            { content := message.content, type := some "html", html := message.content }
          else
            { content := message.content }
      (st2, script, some (.ok finalResponse))

/-- `sendMessage(userMessage, modelType, callback)`
(ai-client.js:975-1023). -/
def sendMessage (cfg : Config) (exec : Option String → ExecOutcome)
    (st : Client) (userMessage : String) (script : List LLMResponse) :
    Client × List LLMResponse × Option TurnOutcome :=
  let userMsg : Message := { role := "user", content := some (.text userMessage) }
  let st1 := { st with
    history := st.history ++ [userMsg],
    saved := st.saved ++ [(⟨"user", .str (some userMessage), none⟩ : SaveEntry)] }
  let st2 := { st1 with requests := st1.requests ++ [mkMessages cfg st1] }
  match script with
  | [] => (st2, [], some (.error "request failed"))
  | r :: rs => processAIResponse cfg exec st2 r rs
/-!
## Concrete scenario data

Fixed configuration, executors and scripted LLM responses used by the
scenario theorems below.
-/

/-- A configuration exposing the single `eval_clojure` tool. -/
def cfg0 : Config := { toolName := "eval_clojure", systemPrompt := "sys" }

/-- A fresh session: empty history, not in error recovery,
`maxIterations` at its default 5. -/
def client0 : Client := {}

/-- A session currently in error recovery (one failure seen). -/
def recClient : Client := { inErrorRecovery := true, iterationCount := 1 }

/-- A tool call for the configured tool with well-formed arguments. -/
def mkTC (i code : String) : ToolCall :=
  { id := i, fname := "eval_clojure", args := .parsed (some code) }

/-- A scripted LLM response with one choice. -/
def mkResp (c : Option String) (tcs : Option (List ToolCall)) : LLMResponse :=
  { choices := [{ message := some { content := c, tool_calls := tcs } }] }

/-- An executor whose results always carry `type: "error"`. -/
def errExec : Option String → ExecOutcome :=
  fun _ => .cbOk { type := some "error", error := some "boom" }

/-- An executor that always succeeds. -/
def okExec : Option String → ExecOutcome :=
  fun _ => .cbOk { type := some "ok" }

/-- An executor that reports a user cancellation for code `"b"` and
succeeds otherwise. -/
def cancelExec : Option String → ExecOutcome :=
  fun c =>
    if c = some "b" then .cbErr "Execution was cancelled by user"
    else .cbOk { type := some "ok" }

/-- A response that always asks for one more (failing) evaluation. -/
def errResp : LLMResponse := mkResp (some "retry") (some [mkTC "c1" "(bad)"])

/-- A response with two tool calls sharing the same id. -/
def dupResp : LLMResponse := mkResp none (some [mkTC "x" "a", mkTC "x" "a"])

/-- A final plain-text response without tool calls. -/
def finalResp : LLMResponse := mkResp (some "done") none

/-- A response whose single tool call has arguments that are not valid
JSON. -/
def malResp : LLMResponse :=
  mkResp none (some [{ id := "1", fname := "eval_clojure", args := .malformed "not json" }])

/-- A validator reporting one error for every input. -/
def failingValidate : String → Except String ValidateResult :=
  fun _ => .ok
    { valid := false,
      errors := [{ level := "error", message := "Unresolved symbol: foo", row := 1, col := 5 }] }

/-- A black-box executor for `evalClojure` that records whether it was
called is not needed: `evalClojure` itself reports it. This one would
succeed if reached. -/
def neverExec : String → Except String JsResult :=
  fun _ => .ok { type := some "ok" }

/-- The eval callback of the orchestrator wired to `evalClojure` with the
failing validator, as `app.js` wires `aiClient` to `evalClojure`. -/
def valPipelineExec : Option String → ExecOutcome :=
  fun c =>
    match evalClojure true true failingValidate neverExec (c.getD "") with
    | (_, .ok r) => .cbOk r
    | (_, .error e) => .cbErr e
/-- The assistant message appended for `errResp` (commentary "retry"). -/
abbrev errAsst : Message :=
  { role := "assistant", content := some (.text "retry"),
    tool_calls := some [mkTC "c1" "(bad)"] }

/-- The same message after error-recovery commentary suppression. -/
abbrev errAsstSup : Message := { errAsst with content := some (.text "") }

/-- The tool message `handleToolCall` builds from `errExec`'s result. -/
abbrev errToolMsg : Message :=
  { role := "tool", tool_call_id := some "c1", name := some "eval_clojure",
    content := some (.payload
      { status := some "error", error := some "boom",
        message := some "The code execution failed with an error. Please analyze the error and generate corrected code using eval_clojure again.",
        errorDetails := some {} }) }

/-- The save-callback records of the two messages above. -/
abbrev asstSave : SaveEntry := ⟨"assistant", .str (some "retry"), some [mkTC "c1" "(bad)"]⟩
abbrev toolSave : SaveEntry := ⟨"tool", .toolJson errToolMsg, none⟩

/-- The client state after one failing round below the iteration limit:
assistant message (suppressed when already in recovery), error tool
message, save-callback records, recovery bookkeeping and the follow-up
request of `continueConversation`. -/
def errNext (st : Client) : Client :=
  if st.inErrorRecovery = true then
    let base : Client := { st with
      history := st.history ++ [errAsstSup, errToolMsg],
      saved := st.saved ++ [asstSave, toolSave],
      iterationCount := st.iterationCount + 1,
      statuses := st.statuses ++
        ["AI is generating corrected code (attempt " ++
          toString (st.iterationCount + 1) ++ ")..."] }
    { base with requests := base.requests ++ [mkMessages cfg0 base] }
  else
    let base : Client := { st with
      history := st.history ++ [errAsst, errToolMsg],
      saved := st.saved ++ [asstSave, toolSave],
      inErrorRecovery := true, iterationCount := 1,
      statuses := st.statuses ++
        ["Code execution failed. AI is analyzing the error and generating a fix..."] }
    { base with requests := base.requests ++ [mkMessages cfg0 base] }

/-- The client state after the failing round that exceeds the limit:
recovery state reset, limit error status, no follow-up request. -/
def errLimitState (st : Client) : Client :=
  { st with
    history := st.history ++ [errAsstSup, errToolMsg],
    saved := st.saved ++ [asstSave, toolSave],
    inErrorRecovery := false, iterationCount := 0,
    statuses := st.statuses ++
      ["AI is generating corrected code (attempt " ++
        toString (st.iterationCount + 1) ++ ")...",
       "Maximum iteration limit (" ++ toString st.maxIterations ++
        ") reached. Unable to fix the error."] }

/-- A response whose commentary would be suppressed in recovery mode. -/
def talkResp : LLMResponse := mkResp (some "Let me fix that") (some [mkTC "c9" "a"])

/-- A response asking to evaluate code that the validator rejects. -/
def valResp : LLMResponse := mkResp none (some [mkTC "t1" "(x)"])

/-- The payload of a successful `handleToolCall` result. -/
def htcPayload (r : HTCResult) : Option ToolPayload :=
  match r with
  | .cbOk m =>
    match m.content with
    | some (.payload p) => some p
    | _ => none
  | _ => none

/-- A user or assistant message is not a tool message. -/
theorem keep_role_not_tool {m : Message}
    (h : m.role = "user" ∨ (m.role = "assistant" ∧ m.tool_calls = none)) :
    ¬ m.role = "tool" := by
  rcases h with h1 | h2
  · rw [h1]; decide
  · rw [h2.1]; decide

theorem asst_role_not_tool {m : Message}
    (h : m.role = "assistant" ∧ hasNonemptyCalls m = true) :
    ¬ m.role = "tool" := by
  rw [h.1]; decide

theorem tool_role_not_keep {m : Message} (h : m.role = "tool") :
    ¬ (m.role = "user" ∨ (m.role = "assistant" ∧ m.tool_calls = none)) := by
  rw [h]; simp

theorem tool_role_not_asst {m : Message} (h : m.role = "tool") :
    ¬ (m.role = "assistant" ∧ hasNonemptyCalls m = true) := by
  rw [h]; simp

theorem keep_not_asst {m : Message}
    (h : m.role = "user" ∨ (m.role = "assistant" ∧ m.tool_calls = none)) :
    ¬ (m.role = "assistant" ∧ hasNonemptyCalls m = true) := by
  rcases h with h1 | h2
  · intro hc; rw [h1] at hc; exact absurd hc.1 (by decide)
  · intro hc; rw [hasNonemptyCalls, h2.2] at hc; simp at hc

/-- The inner pairing check ignores its run context on a non-tool head. -/
theorem pairingIn_nonTool {m : Message} (h : ¬ m.role = "tool")
    (ids seen : List String) (l : List Message) :
    pairingIn ids seen (m :: l) = pairingOut (m :: l) := by
  rw [pairingIn, pairingOut, if_neg h, if_neg h]

theorem okIn_nonTool {m : Message} (h : ¬ m.role = "tool")
    (ids seen : List String) (l : List Message) :
    okIn ids seen (m :: l) = okOut (m :: l) := by
  rw [okIn, okOut, if_neg h]

/-- The outer loop of the sanitizer never emits a tool message first. -/
theorem sanOut_head_role :
    ∀ (h : List Message) (m : Message) (l : List Message),
      sanOut h = m :: l → ¬ m.role = "tool" := by
  intro h
  induction h with
  | nil => intro m l he; rw [sanOut] at he; exact absurd he (by simp)
  | cons x rest ih =>
    intro m l he
    rw [sanOut] at he
    by_cases h1 : x.role = "user" ∨ (x.role = "assistant" ∧ x.tool_calls = none)
    · rw [if_pos h1] at he
      obtain ⟨he1, -⟩ := List.cons.inj he
      rw [← he1]
      exact keep_role_not_tool h1
    · rw [if_neg h1] at he
      by_cases h2 : x.role = "assistant" ∧ hasNonemptyCalls x = true
      · rw [if_pos h2] at he
        obtain ⟨he1, -⟩ := List.cons.inj he
        rw [← he1]
        exact asst_role_not_tool h2
      · rw [if_neg h2] at he
        exact ih m l he

/-- Core induction for the pairing invariant (both loops at once). -/
theorem pairing_san (h : List Message) :
    pairingOut (sanOut h) = true ∧
      ∀ ids seen, pairingIn ids seen (sanIn ids seen h) = true := by
  induction h with
  | nil =>
    constructor
    · rw [sanOut, pairingOut]
    · intro ids seen; rw [sanIn, pairingIn]
  | cons m rest ih =>
    constructor
    · rw [sanOut]
      by_cases h1 : m.role = "user" ∨ (m.role = "assistant" ∧ m.tool_calls = none)
      · rw [if_pos h1, pairingOut, if_neg (keep_role_not_tool h1),
          if_neg (keep_not_asst h1)]
        exact ih.1
      · rw [if_neg h1]
        by_cases h2 : m.role = "assistant" ∧ hasNonemptyCalls m = true
        · rw [if_pos h2, pairingOut, if_neg (asst_role_not_tool h2), if_pos h2]
          exact ih.2 _ _
        · rw [if_neg h2]; exact ih.1
    · intro ids seen
      rw [sanIn]
      by_cases hm : m.role = "tool"
      · rw [if_pos hm]
        by_cases h1 : truthyStr m.tool_call_id = true ∧ (m.tool_call_id.getD "") ∈ ids
        · rw [if_pos h1]
          by_cases h2 : (m.tool_call_id.getD "") ∈ seen
          · rw [if_pos h2]; exact ih.2 _ _
          · rw [if_neg h2, pairingIn, if_pos hm]
            have hne : m.tool_call_id ≠ none := by
              intro hc
              rw [hc] at h1
              simp [truthyStr] at h1
            rw [if_pos ⟨hne, h1.2, h2⟩]
            exact ih.2 _ _
        · rw [if_neg h1]; exact ih.2 _ _
      · rw [if_neg hm]
        by_cases h1 : m.role = "user" ∨ (m.role = "assistant" ∧ m.tool_calls = none)
        · rw [if_pos h1, pairingIn, if_neg hm, if_neg (keep_not_asst h1)]
          exact ih.1
        · rw [if_neg h1]
          by_cases h2 : m.role = "assistant" ∧ hasNonemptyCalls m = true
          · rw [if_pos h2, pairingIn, if_neg hm, if_pos h2]
            exact ih.2 _ _
          · rw [if_neg h2]
            -- dropped message: transfer the outer-loop result into the run context
            have hrec := ih.1
            match he : sanOut rest with
            | [] => rw [pairingIn]
            | m' :: l' =>
              have hm' : ¬ m'.role = "tool" := sanOut_head_role rest m' l' he
              rw [pairingIn_nonTool hm']
              rw [he] at hrec
              exact hrec

/-- Claim C1 — **Sanitizer pairing invariant**: in `sanitizeHistory h`,
every tool message's `tool_call_id` appears among the `tool_calls` of the
assistant message immediately preceding its run of tool messages, and no
two tool messages within one run share an id (this is exactly what
`pairingOut` checks). -/
theorem sanitizeHistory_pairing_invariant (h : List Message) :
    pairingOut (sanitizeHistory h) = true :=
  (pairing_san h).1

/-- The output of the sanitizer satisfies the `okOut`/`okIn` shape
invariant. -/
theorem ok_san (h : List Message) :
    okOut (sanOut h) = true ∧
      ∀ ids seen, okIn ids seen (sanIn ids seen h) = true := by
  induction h with
  | nil =>
    constructor
    · rw [sanOut, okOut]
    · intro ids seen; rw [sanIn, okIn]
  | cons m rest ih =>
    constructor
    · rw [sanOut]
      by_cases h1 : m.role = "user" ∨ (m.role = "assistant" ∧ m.tool_calls = none)
      · rw [if_pos h1, okOut, if_pos h1]
        exact ih.1
      · rw [if_neg h1]
        by_cases h2 : m.role = "assistant" ∧ hasNonemptyCalls m = true
        · rw [if_pos h2, okOut, if_neg h1, if_pos h2]
          exact ih.2 _ _
        · rw [if_neg h2]; exact ih.1
    · intro ids seen
      rw [sanIn]
      by_cases hm : m.role = "tool"
      · rw [if_pos hm]
        by_cases h1 : truthyStr m.tool_call_id = true ∧ (m.tool_call_id.getD "") ∈ ids
        · rw [if_pos h1]
          by_cases h2 : (m.tool_call_id.getD "") ∈ seen
          · rw [if_pos h2]; exact ih.2 _ _
          · rw [if_neg h2, okIn, if_pos hm, if_pos ⟨h1.1, h1.2, h2⟩]
            exact ih.2 _ _
        · rw [if_neg h1]; exact ih.2 _ _
      · rw [if_neg hm]
        by_cases h1 : m.role = "user" ∨ (m.role = "assistant" ∧ m.tool_calls = none)
        · rw [if_pos h1, okIn, if_neg hm, if_pos h1]
          exact ih.1
        · rw [if_neg h1]
          by_cases h2 : m.role = "assistant" ∧ hasNonemptyCalls m = true
          · rw [if_pos h2, okIn, if_neg hm, if_neg h1, if_pos h2]
            exact ih.2 _ _
          · rw [if_neg h2]
            have hrec := ih.1
            match he : sanOut rest with
            | [] => rw [okIn]
            | m' :: l' =>
              have hm' : ¬ m'.role = "tool" := sanOut_head_role rest m' l' he
              rw [okIn_nonTool hm']
              rw [he] at hrec
              exact hrec

/-- Lists satisfying the shape invariant are fixed points of the
sanitizer. -/
theorem san_fix (h : List Message) :
    (okOut h = true → sanOut h = h) ∧
      ∀ ids seen, okIn ids seen h = true → sanIn ids seen h = h := by
  induction h with
  | nil =>
    constructor
    · intro _; rw [sanOut]
    · intro ids seen _; rw [sanIn]
  | cons m rest ih =>
    constructor
    · intro hok
      rw [okOut] at hok
      rw [sanOut]
      by_cases h1 : m.role = "user" ∨ (m.role = "assistant" ∧ m.tool_calls = none)
      · rw [if_pos h1] at hok
        rw [if_pos h1, ih.1 hok]
      · rw [if_neg h1] at hok
        rw [if_neg h1]
        by_cases h2 : m.role = "assistant" ∧ hasNonemptyCalls m = true
        · rw [if_pos h2] at hok
          rw [if_pos h2, ih.2 _ _ hok]
        · rw [if_neg h2] at hok
          exact absurd hok (by simp)
    · intro ids seen hok
      rw [okIn] at hok
      rw [sanIn]
      by_cases hm : m.role = "tool"
      · rw [if_pos hm] at hok
        rw [if_pos hm]
        by_cases h1 : truthyStr m.tool_call_id = true ∧ (m.tool_call_id.getD "") ∈ ids ∧
            (m.tool_call_id.getD "") ∉ seen
        · rw [if_pos h1] at hok
          rw [if_pos ⟨h1.1, h1.2.1⟩, if_neg h1.2.2, ih.2 _ _ hok]
        · rw [if_neg h1] at hok
          exact absurd hok (by simp)
      · rw [if_neg hm] at hok
        rw [if_neg hm]
        by_cases h1 : m.role = "user" ∨ (m.role = "assistant" ∧ m.tool_calls = none)
        · rw [if_pos h1] at hok
          rw [if_pos h1, ih.1 hok]
        · rw [if_neg h1] at hok
          rw [if_neg h1]
          by_cases h2 : m.role = "assistant" ∧ hasNonemptyCalls m = true
          · rw [if_pos h2] at hok
            rw [if_pos h2, ih.2 _ _ hok]
          · rw [if_neg h2] at hok
            exact absurd hok (by simp)

/-- Claim C2 — **Sanitizer idempotence**: sanitizing twice equals
sanitizing once. -/
theorem sanitizeHistory_idempotent (h : List Message) :
    sanitizeHistory (sanitizeHistory h) = sanitizeHistory h :=
  (san_fix (sanOut h)).1 (ok_san h).1

/-- Claim C10 — the sanitizer only drops messages: its output is a
sublist (subsequence: same relative order, no duplication or invention)
of its input. -/
theorem sanitizeHistory_sublist (h : List Message) :
    List.Sublist (sanitizeHistory h) h := by
  suffices H : ∀ (l : List Message),
      List.Sublist (sanOut l) l ∧
        ∀ ids seen, List.Sublist (sanIn ids seen l) l from (H h).1
  intro l
  induction l with
  | nil =>
    constructor
    · rw [sanOut]
    · intro ids seen; rw [sanIn]
  | cons m rest ih =>
    constructor
    · rw [sanOut]
      by_cases h1 : m.role = "user" ∨ (m.role = "assistant" ∧ m.tool_calls = none)
      · rw [if_pos h1]; exact ih.1.cons₂ m
      · rw [if_neg h1]
        by_cases h2 : m.role = "assistant" ∧ hasNonemptyCalls m = true
        · rw [if_pos h2]; exact (ih.2 _ _).cons₂ m
        · rw [if_neg h2]; exact ih.1.cons m
    · intro ids seen
      rw [sanIn]
      by_cases hm : m.role = "tool"
      · rw [if_pos hm]
        by_cases h1 : truthyStr m.tool_call_id = true ∧ (m.tool_call_id.getD "") ∈ ids
        · rw [if_pos h1]
          by_cases h2 : (m.tool_call_id.getD "") ∈ seen
          · rw [if_pos h2]; exact (ih.2 _ _).cons m
          · rw [if_neg h2]; exact (ih.2 _ _).cons₂ m
        · rw [if_neg h1]; exact (ih.2 _ _).cons m
      · rw [if_neg hm]
        by_cases h1 : m.role = "user" ∨ (m.role = "assistant" ∧ m.tool_calls = none)
        · rw [if_pos h1]; exact ih.1.cons₂ m
        · rw [if_neg h1]
          by_cases h2 : m.role = "assistant" ∧ hasNonemptyCalls m = true
          · rw [if_pos h2]; exact (ih.2 _ _).cons₂ m
          · rw [if_neg h2]; exact ih.1.cons m


theorem scanMarker_length :
    ∀ (l l' : List Char), scanMarker l = some l' → l'.length < l.length := by
  intro l
  induction l with
  | nil => intro l' h; rw [scanMarker] at h; exact absurd h (by simp)
  | cons c rest ih =>
    intro l' h
    rw [scanMarker] at h
    by_cases h1 : isBar c = true ∧ rest.head? = some '>'
    · rw [if_pos h1] at h
      obtain rfl : rest.tail = l' := Option.some.inj h
      have : rest.tail.length ≤ rest.length := by
        cases rest <;> simp
      simp only [List.length_cons]
      omega
    · rw [if_neg h1] at h
      by_cases h2 : c = '>'
      · rw [if_pos h2] at h; exact absurd h (by simp)
      · rw [if_neg h2] at h
        have := ih l' h
        simp only [List.length_cons]
        omega

/-!
## Round lemmas for the orchestrator scenarios
-/

theorem reverse_snoc {α : Type} (l : List α) (a : α) :
    (l ++ [a]).reverse = a :: l.reverse := by simp

/-- The sequencing check inspects the nearest (here: last) assistant
message. -/
theorem seqCheck_snoc (H : List Message) (a : Message) (rid : String)
    (ha : a.role = "assistant") :
    seqCheck (H ++ [a]) rid =
      (a.tool_calls.isSome && (a.tool_calls.getD []).any (fun c => c.id == rid)) := by
  rw [seqCheck, reverse_snoc]
  rw [List.find?_cons_of_pos _ (by rw [ha]; rfl)]

/-- The duplicate scan stops at the assistant message heading the turn. -/
theorem dupScan_snoc (H : List Message) (a : Message) (rid : String)
    (ha : a.role = "assistant") (hc : a.tool_calls.isSome = true) :
    dupScan rid ((H ++ [a]).reverse) = false := by
  rw [reverse_snoc, dupScan]
  rw [if_neg (by rw [ha]; simp), if_pos (by rw [ha, hc]; simp)]

theorem handleToolCall_err :
    handleToolCall cfg0 errExec (mkTC "c1" "(bad)") = .cbOk errToolMsg := rfl

/-- One failing tool call while already in recovery, below the limit. -/
theorem toolLoop_err_continue (st : Client) (a : Message) (H : List Message)
    (hh : st.history = H ++ [a]) (ha : a.role = "assistant")
    (hcalls : a.tool_calls = some [mkTC "c1" "(bad)"])
    (hb : st.inErrorRecovery = true)
    (hk : st.iterationCount + 1 ≤ st.maxIterations) :
    toolLoop cfg0 errExec st [mkTC "c1" "(bad)"] 1 0 false none =
      ⟨{ st with
          history := st.history ++ [errToolMsg],
          saved := st.saved ++ [toolSave],
          iterationCount := st.iterationCount + 1,
          statuses := st.statuses ++
            ["AI is generating corrected code (attempt " ++
              toString (st.iterationCount + 1) ++ ")..."] },
        1, false, none⟩ := by
  rw [toolLoop, handleToolCall_err]
  simp only [truthyStr, contentNotJson, payloadStatus, errToolMsg, firstSome]
  have hseq : seqCheck st.history "c1" = true := by
    rw [hh, seqCheck_snoc _ _ _ ha, hcalls]; rfl
  have hdup : dupScan "c1" st.history.reverse = false := by
    rw [hh]; exact dupScan_snoc _ _ _ ha (by rw [hcalls]; rfl)
  simp only [Option.getD_some, hseq, hdup, hb]
  simp
  rw [if_neg (by omega)]
  try rw [toolLoop]
  try simp [errToolMsg, toolSave]

/-- One failing tool call entering recovery mode. -/
theorem toolLoop_err_enter (st : Client) (a : Message) (H : List Message)
    (hh : st.history = H ++ [a]) (ha : a.role = "assistant")
    (hcalls : a.tool_calls = some [mkTC "c1" "(bad)"])
    (hb : st.inErrorRecovery = false)
    (hk : 1 ≤ st.maxIterations) :
    toolLoop cfg0 errExec st [mkTC "c1" "(bad)"] 1 0 false none =
      ⟨{ st with
          history := st.history ++ [errToolMsg],
          saved := st.saved ++ [toolSave],
          inErrorRecovery := true, iterationCount := 1,
          statuses := st.statuses ++
            ["Code execution failed. AI is analyzing the error and generating a fix..."] },
        1, false, none⟩ := by
  rw [toolLoop, handleToolCall_err]
  simp only [truthyStr, contentNotJson, payloadStatus, errToolMsg, firstSome]
  have hseq : seqCheck st.history "c1" = true := by
    rw [hh, seqCheck_snoc _ _ _ ha, hcalls]; rfl
  have hdup : dupScan "c1" st.history.reverse = false := by
    rw [hh]; exact dupScan_snoc _ _ _ ha (by rw [hcalls]; rfl)
  simp only [Option.getD_some, hseq, hdup, hb]
  simp
  rw [if_neg (by omega)]
  try rw [toolLoop]
  try simp [errToolMsg, toolSave]

/-- One failing tool call pushing the count past the limit: recovery
state resets and the turn fails with the limit error. -/
theorem toolLoop_err_limit (st : Client) (a : Message) (H : List Message)
    (hh : st.history = H ++ [a]) (ha : a.role = "assistant")
    (hcalls : a.tool_calls = some [mkTC "c1" "(bad)"])
    (hb : st.inErrorRecovery = true)
    (hk : st.maxIterations < st.iterationCount + 1) :
    toolLoop cfg0 errExec st [mkTC "c1" "(bad)"] 1 0 false none =
      ⟨{ st with
          history := st.history ++ [errToolMsg],
          saved := st.saved ++ [toolSave],
          inErrorRecovery := false, iterationCount := 0,
          statuses := st.statuses ++
            ["AI is generating corrected code (attempt " ++
              toString (st.iterationCount + 1) ++ ")...",
             "Maximum iteration limit (" ++ toString st.maxIterations ++
              ") reached. Unable to fix the error."] },
        0, false,
        some (.error ("Maximum iteration limit (" ++ toString st.maxIterations ++
          ") reached. Unable to fix the error."))⟩ := by
  rw [toolLoop, handleToolCall_err]
  simp only [truthyStr, contentNotJson, payloadStatus, errToolMsg, firstSome]
  have hseq : seqCheck st.history "c1" = true := by
    rw [hh, seqCheck_snoc _ _ _ ha, hcalls]; rfl
  have hdup : dupScan "c1" st.history.reverse = false := by
    rw [hh]; exact dupScan_snoc _ _ _ ha (by rw [hcalls]; rfl)
  simp only [Option.getD_some, hseq, hdup, hb]
  simp
  rw [if_pos (by omega)]
  try rw [toolLoop]
  try simp [errToolMsg, toolSave]

/-- One whole failing round while in recovery, below the limit: the
orchestrator continues the conversation with the next scripted
response. -/
theorem errRound_continue (st : Client) (script : List LLMResponse)
    (hb : st.inErrorRecovery = true)
    (hk : st.iterationCount + 1 ≤ st.maxIterations) :
    processAIResponse cfg0 errExec st errResp script =
      match script with
      | [] => (errNext st, [], some (.error "request failed"))
      | r :: rs => processAIResponse cfg0 errExec (errNext st) r rs := by
  rw [processAIResponse]
  simp only [errResp, mkResp, getMessage, hasNonemptyCallsAI, truthyStr]
  simp only [hb, List.dropLast_concat, Option.getD_some, List.length_cons, List.length_nil,
    Nat.zero_add]
  simp only [show (True ∧ ("retry" != "") = true) = True by simp]
  simp only [if_true]
  rw [toolLoop_err_continue _ errAsstSup st.history (by rfl) (by rfl) (by rfl) (by rfl)
    (by exact hk)]
  cases script with
  | nil => simp [errNext, hb, firstSome]
  | cons r rs => simp [errNext, hb, firstSome]

/-- One whole failing round entering recovery mode. -/
theorem errRound_enter (st : Client) (script : List LLMResponse)
    (hb : st.inErrorRecovery = false)
    (hk : 1 ≤ st.maxIterations) :
    processAIResponse cfg0 errExec st errResp script =
      match script with
      | [] => (errNext st, [], some (.error "request failed"))
      | r :: rs => processAIResponse cfg0 errExec (errNext st) r rs := by
  rw [processAIResponse]
  simp only [errResp, mkResp, getMessage, hasNonemptyCallsAI, truthyStr]
  simp only [hb, List.dropLast_concat, Option.getD_some, List.length_cons, List.length_nil,
    Nat.zero_add]
  simp only [show ((false = true) ∧ ("retry" != "") = true) = False by simp]
  simp only [if_false]
  rw [toolLoop_err_enter _ errAsst st.history (by rfl) (by rfl) (by rfl) (by rfl)
    (by exact hk)]
  cases script with
  | nil => simp [errNext, hb, firstSome]
  | cons r rs => simp [errNext, hb, firstSome]

/-- One whole failing round exceeding the limit: the turn ends with the
limit error, without any further LLM request (the script is untouched). -/
theorem errRound_limit (st : Client) (script : List LLMResponse)
    (hb : st.inErrorRecovery = true)
    (hk : st.maxIterations < st.iterationCount + 1) :
    processAIResponse cfg0 errExec st errResp script =
      (errLimitState st, script,
        some (.error ("Maximum iteration limit (" ++ toString st.maxIterations ++
          ") reached. Unable to fix the error."))) := by
  rw [processAIResponse]
  simp only [errResp, mkResp, getMessage, hasNonemptyCallsAI, truthyStr]
  simp only [hb, List.dropLast_concat, Option.getD_some, List.length_cons, List.length_nil,
    Nat.zero_add]
  simp only [show (True ∧ ("retry" != "") = true) = True by simp]
  simp only [if_true]
  rw [toolLoop_err_limit _ errAsstSup st.history (by rfl) (by rfl) (by rfl) (by rfl)
    (by exact hk)]
  simp [errLimitState, firstSome]

theorem handleToolCall_cancel :
    handleToolCall cfg0 cancelExec (mkTC "c1" "b") = .cbError "USER_CANCELLED" := rfl

/-- A user-cancelled tool call: the assistant message at the end of the
history is removed, no tool message is produced, and the loop records the
cancellation outcome without completing the call. -/
theorem toolLoop_cancel (st : Client) (a : Message) (H : List Message)
    (hh : st.history = H ++ [a]) (ha : a.role = "assistant") :
    toolLoop cfg0 cancelExec st [mkTC "c1" "b"] 1 0 false none =
      ⟨{ st with history := H }, 0, false,
        some (.error "Code execution cancelled by user")⟩ := by
  rw [toolLoop, handleToolCall_cancel]
  simp only [firstSome, if_pos rfl]
  rw [hh, List.getLast?_concat]
  simp only [if_pos ha, List.dropLast_concat]
  try rw [toolLoop]
  simp

/-- A whole turn whose single tool call is cancelled: the history is
left exactly as it was before the assistant message was appended, only
the save callback keeps a record of it, and no further LLM request is
made. -/
theorem cancelRound (st : Client) (rest : List LLMResponse) :
    processAIResponse cfg0 cancelExec st (mkResp (some "working") (some [mkTC "c1" "b"])) rest =
      ({ st with saved := st.saved ++
          [(⟨"assistant", .str (some "working"), some [mkTC "c1" "b"]⟩ : SaveEntry)] },
        rest, some (.error "Code execution cancelled by user")) := by
  rw [processAIResponse]
  simp only [mkResp, getMessage, hasNonemptyCallsAI, truthyStr, Option.getD_some,
    List.length_cons, List.length_nil, Nat.zero_add]
  by_cases hb : st.inErrorRecovery = true
  · simp only [hb, List.dropLast_concat]
    simp only [show (True ∧ ("working" != "") = true) = True by simp, if_true]
    rw [toolLoop_cancel _ _ (st.history) (by rfl) (by rfl)]
    simp
  · simp only [eq_false_of_ne_true hb]
    simp only [show ((false = true) ∧ ("working" != "") = true) = False by simp, if_false]
    rw [toolLoop_cancel _ _ (st.history) (by rfl) (by rfl)]
    simp

/-!
## Claim theorems C3-C8
-/

/-- Claim C3, counterexample: with the default `maxIterations = 5` and an
executor that always fails, after exactly 5 consecutive failures the
orchestrator has **not** terminated the turn with the iteration-limit
error: it has issued a sixth LLM request (surfacing here as the
exhausted-script transport error), and the recovery state is still
`inErrorRecovery = true`, `iterationCount = 5` rather than reset. -/
theorem iteration_limit_not_reached_after_five_failures :
    (sendMessage cfg0 errExec client0 "go" (List.replicate 5 errResp)).2.2 =
      some (.error "request failed") ∧
    (sendMessage cfg0 errExec client0 "go" (List.replicate 5 errResp)).1.inErrorRecovery = true ∧
    (sendMessage cfg0 errExec client0 "go" (List.replicate 5 errResp)).1.iterationCount = 5 := by
  rw [show (List.replicate 5 errResp) =
    errResp :: errResp :: errResp :: errResp :: errResp :: [] from rfl]
  rw [sendMessage]
  simp only []
  rw [errRound_enter _ _ (by rfl) (by decide)]
  simp only []
  rw [errRound_continue _ _ (by rfl) (by decide)]
  simp only []
  rw [errRound_continue _ _ (by rfl) (by decide)]
  simp only []
  rw [errRound_continue _ _ (by rfl) (by decide)]
  simp only []
  rw [errRound_continue _ _ (by rfl) (by decide)]
  refine ⟨rfl, rfl, rfl⟩

/-- Claim C3, amended: given an executor that always returns an
error-status result, the orchestrator terminates the turn on the failure
that makes `iterationCount` exceed `maxIterations` — i.e. after
`maxIterations + 1 = 6` consecutive failures — with the
maximum-iteration-limit error, resetting `inErrorRecovery` to `false`
and `iterationCount` to `0`, and issues no further LLM request (the
remaining script `rest` is untouched, and exactly 6 requests were made
in total), rather than looping forever. -/
theorem iteration_limit_reached_after_six_failures (rest : List LLMResponse) :
    (sendMessage cfg0 errExec client0 "go" (List.replicate 6 errResp ++ rest)).2.2 =
      some (.error "Maximum iteration limit (5) reached. Unable to fix the error.") ∧
    (sendMessage cfg0 errExec client0 "go" (List.replicate 6 errResp ++ rest)).2.1 = rest ∧
    (sendMessage cfg0 errExec client0 "go" (List.replicate 6 errResp ++ rest)).1.inErrorRecovery
      = false ∧
    (sendMessage cfg0 errExec client0 "go" (List.replicate 6 errResp ++ rest)).1.iterationCount
      = 0 ∧
    (sendMessage cfg0 errExec client0 "go" (List.replicate 6 errResp ++ rest)).1.requests.length
      = 6 := by
  rw [show (List.replicate 6 errResp ++ rest) =
    errResp :: errResp :: errResp :: errResp :: errResp :: errResp :: rest from rfl]
  rw [sendMessage]
  simp only []
  rw [errRound_enter _ _ (by rfl) (by decide)]
  simp only []
  rw [errRound_continue _ _ (by rfl) (by decide)]
  simp only []
  rw [errRound_continue _ _ (by rfl) (by decide)]
  simp only []
  rw [errRound_continue _ _ (by rfl) (by decide)]
  simp only []
  rw [errRound_continue _ _ (by rfl) (by decide)]
  simp only []
  rw [errRound_limit _ _ (by rfl) (by decide)]
  refine ⟨rfl, rfl, rfl, rfl, rfl⟩

set_option maxHeartbeats 4000000 in
/-- Claim C4, counterexample: in a turn with two tool calls where the
first succeeds (appending its tool message) and the second resolves as a
user cancellation, the orchestrator still returns the cancellation
outcome, but the just-appended assistant message is **not** removed
(the last history entry is the tool message, so the retraction guard
does not fire): the net history change is user + assistant + tool, not
only the user message. -/
theorem cancellation_two_calls_keeps_assistant :
    (sendMessage cfg0 cancelExec client0 "go"
        [mkResp (some "working") (some [mkTC "c1" "a", mkTC "c2" "b"])]).2.2 =
      some (.error "Code execution cancelled by user") ∧
    ((sendMessage cfg0 cancelExec client0 "go"
        [mkResp (some "working") (some [mkTC "c1" "a", mkTC "c2" "b"])]).1.history.map
          Message.role) = ["user", "assistant", "tool"] ∧
    (sendMessage cfg0 cancelExec client0 "go"
        [mkResp (some "working") (some [mkTC "c1" "a", mkTC "c2" "b"])]).1.history.length
      = 3 :=
  ⟨rfl, rfl, rfl⟩

/-- Claim C4, amended: when the turn's **single** tool call resolves as a
user cancellation, the turn aborts immediately: the just-appended
assistant message is removed from the history, no tool message is
appended, no further LLM request is issued (the script tail is
untouched and only the one initial request was made), the orchestrator
returns the cancellation outcome, and the net change to the
conversation history — whatever the prior state — is exactly the user
message. -/
theorem cancellation_single_call_retracts_history (hist : List Message) (b : Bool)
    (k : Nat) (u : String) (rest : List LLMResponse) :
    (sendMessage cfg0 cancelExec
        { history := hist, inErrorRecovery := b, iterationCount := k } u
        (mkResp (some "working") (some [mkTC "c1" "b"]) :: rest)).2.2 =
      some (.error "Code execution cancelled by user") ∧
    (sendMessage cfg0 cancelExec
        { history := hist, inErrorRecovery := b, iterationCount := k } u
        (mkResp (some "working") (some [mkTC "c1" "b"]) :: rest)).1.history =
      hist ++ [{ role := "user", content := some (.text u) }] ∧
    (sendMessage cfg0 cancelExec
        { history := hist, inErrorRecovery := b, iterationCount := k } u
        (mkResp (some "working") (some [mkTC "c1" "b"]) :: rest)).2.1 = rest ∧
    (sendMessage cfg0 cancelExec
        { history := hist, inErrorRecovery := b, iterationCount := k } u
        (mkResp (some "working") (some [mkTC "c1" "b"]) :: rest)).1.requests.length = 1 := by
  rw [sendMessage]
  simp only []
  rw [cancelRound]
  refine ⟨rfl, rfl, rfl, rfl⟩

set_option maxHeartbeats 4000000 in
/-- Claim C5, counterexample: a turn whose two tool calls share one
`tool_call_id` is **not** aborted with a local integrity error: the
duplicate tool message is skipped, and the turn continues with a further
LLM request, ending in the ordinary final response of the next scripted
reply. -/
theorem duplicate_tool_id_turn_not_aborted :
    (sendMessage cfg0 okExec client0 "go" [dupResp, finalResp]).2.2 =
      some (.ok { content := some "done" }) ∧
    ((sendMessage cfg0 okExec client0 "go" [dupResp, finalResp]).1.history.map Message.role) =
      ["user", "assistant", "tool", "assistant"] :=
  ⟨rfl, rfl⟩

set_option maxHeartbeats 4000000 in
/-- Claim C5, amended: when a tool result's `tool_call_id` duplicates a
tool message already appended for the same assistant turn, the
orchestrator logs a warning and does not append the duplicate to the
conversation history (exactly one tool message remains), but it still
passes the duplicate to the save callback and the turn **continues
normally** — a further LLM request is issued and the turn completes with
the next response — rather than aborting with an integrity error. -/
theorem duplicate_tool_id_skipped_turn_continues (u : String) :
    (sendMessage cfg0 okExec client0 u [dupResp, finalResp]).2.2 =
      some (.ok { content := some "done" }) ∧
    ((sendMessage cfg0 okExec client0 u [dupResp, finalResp]).1.history.map Message.role) =
      ["user", "assistant", "tool", "assistant"] ∧
    ((sendMessage cfg0 okExec client0 u [dupResp, finalResp]).1.saved.map SaveEntry.role) =
      ["user", "assistant", "tool", "tool", "assistant"] :=
  ⟨rfl, rfl, rfl⟩

set_option maxHeartbeats 4000000 in
/-- Claim C6: `handleToolCall` parses the tool call's `arguments` with an
unguarded `JSON.parse`; malformed JSON is **not** caught locally and no
error tool message is produced. The thrown exception escapes the
executor (in the running system it is intercepted only by the accidental
`try` around `callback(null, jsonData)` in `makeRequest`), and the turn
aborts with a mislabelled `Failed to parse response` error, the
assistant message left dangling in history without any tool message. -/
theorem malformed_arguments_throw_uncaught :
    handleToolCall cfg0 okExec
        { id := "1", fname := "eval_clojure", args := .malformed "not json" } =
      .jsThrow "Unexpected token in JSON: not json" ∧
    (sendMessage cfg0 okExec client0 "go" [malResp, finalResp]).2.2 =
      some (.error "Failed to parse response: Unexpected token in JSON: not json") ∧
    ((sendMessage cfg0 okExec client0 "go" [malResp, finalResp]).1.history.map Message.role) =
      ["user", "assistant"] :=
  ⟨rfl, rfl, rfl⟩

set_option maxHeartbeats 4000000 in
/-- Claim C7: when the validator reports `valid: false` with one error,
`evalClojure` does not call the executor (first conjunct), and the turn
enters error recovery (last conjuncts); but because
`formatForVisualization` copies only a fixed list of fields, dropping
`validationErrors` and replacing `errorDetails`, the tool message
content carries `validationErrors = null` and the generic
**runtime**-error guidance text — `handleToolCall`'s validation-specific
branch is dead code on this path. -/
theorem validation_error_degraded_to_runtime_error :
    (evalClojure true true failingValidate neverExec "(x)").1 = false ∧
    htcPayload (handleToolCall cfg0 valPipelineExec (mkTC "t1" "(x)")) =
      some
        { status := some "error",
          error := some "Code validation failed:\nLine 1, Col 5: Unresolved symbol: foo (error)",
          message := some "The code execution failed with an error. Please analyze the error and generate corrected code using eval_clojure again.",
          errorDetails := some
            { message := some "Code validation failed:\nLine 1, Col 5: Unresolved symbol: foo (error)",
              isRetryable := some true,
              context := some "Code execution failed. Analyze the error and generate corrected code." },
          validationErrors := none, logs := [] } ∧
    (sendMessage cfg0 valPipelineExec client0 "go" [valResp]).1.inErrorRecovery = true ∧
    (sendMessage cfg0 valPipelineExec client0 "go" [valResp]).1.iterationCount = 1 :=
  ⟨rfl, rfl, rfl, rfl⟩

set_option maxHeartbeats 4000000 in
/-- Claim C8, counterexample: with the session in error recovery and an
LLM response carrying commentary plus a tool call, the save callback
(`saved[1]`) receives the **original** commentary `"Let me fix that"`,
not the suppressed empty content — persistence happens before the
suppression — even though the history entry (`history[1]`) is indeed
emptied. -/
theorem recovery_suppression_after_save :
    ((sendMessage cfg0 okExec recClient "go" [talkResp, finalResp]).1.saved[1]?) =
      some ⟨"assistant", .str (some "Let me fix that"), some [mkTC "c9" "a"]⟩ ∧
    ((sendMessage cfg0 okExec recClient "go" [talkResp, finalResp]).1.history[1]?) =
      some { role := "assistant", content := some (.text ""),
             tool_calls := some [mkTC "c9" "a"] } :=
  ⟨rfl, rfl⟩

set_option maxHeartbeats 4000000 in
/-- Claim C8, amended: in error-recovery mode, for any non-empty
commentary `c`, the assistant message's content is replaced with the
empty string in the conversation history (and hence in the follow-up
request sent onward to the LLM, whose third message carries the empty
content), but the save callback persists the original commentary `c`,
because it is invoked before the suppression. -/
theorem recovery_suppression_history_not_persistence (c : String) (hc : c ≠ "") :
    ((sendMessage cfg0 okExec recClient "go"
        [mkResp (some c) (some [mkTC "c9" "a"]), finalResp]).1.history[1]?) =
      some { role := "assistant", content := some (.text ""),
             tool_calls := some [mkTC "c9" "a"] } ∧
    ((sendMessage cfg0 okExec recClient "go"
        [mkResp (some c) (some [mkTC "c9" "a"]), finalResp]).1.saved[1]?) =
      some ⟨"assistant", .str (some c), some [mkTC "c9" "a"]⟩ ∧
    (((sendMessage cfg0 okExec recClient "go"
        [mkResp (some c) (some [mkTC "c9" "a"]), finalResp]).1.requests[1]?).bind
          (fun msgs => msgs[2]?)).map Message.content =
      some (some (.text "")) := by
  have hcb : (c != "") = true := by simpa using hc
  rw [sendMessage]
  simp only []
  rw [processAIResponse]
  simp only [mkResp, getMessage, hasNonemptyCallsAI, truthyStr, Option.getD_some,
    List.length_cons, List.length_nil, Nat.zero_add, recClient]
  simp only [hcb, List.dropLast_concat]
  refine ⟨rfl, rfl, rfl⟩

set_option maxHeartbeats 4000000 in
/-- Witness for the amended claim C8 at concrete commentary text. -/
theorem recovery_suppression_history_not_persistence_witness :
    ("Analyzing the error" ≠ "") ∧
    (((sendMessage cfg0 okExec recClient "go"
        [mkResp (some "Analyzing the error") (some [mkTC "c9" "a"]), finalResp]).1.saved[1]?) =
      some ⟨"assistant", .str (some "Analyzing the error"), some [mkTC "c9" "a"]⟩) :=
  ⟨by decide, (recovery_suppression_history_not_persistence "Analyzing the error"
    (by decide)).2.1⟩

/-!
## Claim C9: the block-tag closing-cut of the extractor

The code selects the closing tag with
`new RegExp('</' + tagName + '>(?!.*</' + tagName + '>)', 'i')`
(ai-client.js:632-636). The dot of the negative lookahead does not
cross line terminators, so the "last occurrence" reading of the spec
holds only per line. `lastOccCI` and `specBlockExtract` above model the
spec reading; the lemmas below show it agrees with the code exactly on
newline-free content, because occurrences of `</tagName>` cannot
overlap.
-/

theorem lastOccCI_match (pat : List Char) :
    ∀ (l : List Char) (j : Nat), lastOccCI pat l = some j →
      matchAtCI pat (l.drop j) = true := by
  intro l
  induction l with
  | nil => intro j h; rw [lastOccCI] at h; exact absurd h (by simp)
  | cons c r ih =>
    intro j h
    rw [lastOccCI] at h
    match hr : lastOccCI pat r with
    | some i =>
      rw [hr] at h
      obtain rfl : i + 1 = j := Option.some.inj h
      simpa using ih i hr
    | none =>
      rw [hr] at h
      by_cases hm : matchAtCI pat (c :: r) = true
      · rw [if_pos hm] at h
        obtain rfl : 0 = j := Option.some.inj h
        simpa using hm
      · rw [if_neg hm] at h
        exact absurd h (by simp)

theorem findCI_isSome_iff (pat : List Char) (hne : pat ≠ []) :
    ∀ (l : List Char), (findCI pat l).isSome = true ↔
      ∃ m, matchAtCI pat (l.drop m) = true := by
  intro l
  induction l with
  | nil =>
    have hm0 : matchAtCI pat [] = false := by
      match pat with
      | [] => exact absurd rfl hne
      | p :: ps => rfl
    simp [findCI, hm0]
  | cons c r ih =>
    rw [findCI]
    by_cases hm : matchAtCI pat (c :: r) = true
    · rw [if_pos hm]
      simp only [Option.isSome_some, true_iff]
      exact ⟨0, by simpa using hm⟩
    · rw [if_neg hm]
      have hmap : ((findCI pat r).map (· + 1)).isSome = (findCI pat r).isSome := by
        cases findCI pat r <;> rfl
      rw [hmap, ih]
      constructor
      · rintro ⟨m, hmm⟩
        exact ⟨m + 1, by simpa using hmm⟩
      · rintro ⟨m, hmm⟩
        match m with
        | 0 => simp at hmm; exact absurd hmm hm
        | m + 1 => exact ⟨m, by simpa using hmm⟩

theorem sameLineOcc_noNL (pat : List Char) (hne : pat ≠ []) :
    ∀ (l : List Char), (∀ c ∈ l, isNL c = false) →
      sameLineOcc pat l = (findCI pat l).isSome := by
  intro l
  induction l with
  | nil =>
    intro _
    have hm0 : matchAtCI pat [] = false := by
      match pat with
      | [] => exact absurd rfl hne
      | p :: ps => rfl
    simp [sameLineOcc, findCI, hm0]
  | cons c r ih =>
    intro hnl
    rw [sameLineOcc, findCI]
    by_cases hm : matchAtCI pat (c :: r) = true
    · rw [if_pos hm, if_pos hm]; rfl
    · rw [if_neg hm, if_neg hm]
      rw [if_neg (by simp [hnl c (by simp)])]
      rw [ih (fun x hx => hnl x (by simp [hx]))]
      simp [Option.isSome_map]

theorem char_toNat_ofNat (n : Nat) (h1 : 97 ≤ n) (h2 : n ≤ 122) :
    (Char.ofNat n).toNat = n := by
  have hv : n.isValidChar := Or.inl (by omega)
  rw [Char.ofNat, dif_pos hv]
  rfl

theorem wordChar_toLower_ne (c : Char) (h : wordChar c = true) :
    c.toLower ≠ '<' := by
  intro hc
  rw [Char.toLower] at hc
  by_cases hr : c.toNat ≥ 65 ∧ c.toNat ≤ 90
  · rw [if_pos hr] at hc
    have h60 : (Char.ofNat (c.toNat + 32)).toNat = Char.toNat '<' := by rw [hc]
    rw [char_toNat_ofNat _ (by omega) (by omega)] at h60
    have hlt : Char.toNat '<' = 60 := by decide
    omega
  · rw [if_neg hr] at hc
    subst hc
    exact absurd h (by decide)

theorem matchAtCI_length (pat : List Char) :
    ∀ l, matchAtCI pat l = true → pat.length ≤ l.length := by
  induction pat with
  | nil => intro l _; simp
  | cons p ps ih =>
    intro l h
    match l with
    | [] => rw [matchAtCI] at h; exact absurd h (by simp)
    | c :: cs =>
      rw [matchAtCI, Bool.and_eq_true] at h
      have := ih cs h.2
      simp only [List.length_cons]
      omega

theorem matchAtCI_corr (pat : List Char) :
    ∀ (l : List Char) (k : Nat) (p c : Char),
      matchAtCI pat l = true → pat[k]? = some p → l[k]? = some c →
      c.toLower = p.toLower := by
  induction pat with
  | nil => intro l k p c _ hp _; simp at hp
  | cons q ps ih =>
    intro l k p c hm hp hc
    match l with
    | [] => rw [matchAtCI] at hm; exact absurd hm (by simp)
    | d :: cs =>
      rw [matchAtCI, Bool.and_eq_true] at hm
      match k with
      | 0 =>
        simp at hp hc
        subst hp
        subst hc
        exact (eq_of_beq hm.1).symm
      | k + 1 =>
        simp at hp hc
        exact ih cs k p c hm.2 hp hc

theorem closePat_length (tag : List Char) : (closePat tag).length = tag.length + 3 := by
  simp [closePat]

theorem closePat_get_ne (tag : List Char) (htag : ∀ c ∈ tag, wordChar c = true) :
    ∀ (j : Nat) (p : Char), 0 < j → (closePat tag)[j]? = some p →
      p.toLower ≠ '<' := by
  intro j p hj0 hp
  match j, hj0 with
  | 1, _ =>
    have h1 : (closePat tag)[1]? = some '/' := by simp [closePat]
    rw [h1] at hp
    obtain rfl := Option.some.inj hp
    decide
  | (j : Nat) + 2, _ =>
    have hg : (closePat tag)[j + 2]? = (tag ++ ['>'])[j]? := by
      simp [closePat]
    rw [hg] at hp
    by_cases hlt : j < tag.length
    · rw [List.getElem?_append, if_pos hlt] at hp
      have hmem : p ∈ tag := by
        have := List.getElem?_eq_getElem hlt
        rw [this] at hp
        obtain rfl := Option.some.inj hp
        exact List.getElem_mem hlt
      exact wordChar_toLower_ne p (htag p hmem)
    · rw [List.getElem?_append, if_neg hlt] at hp
      by_cases hj : j = tag.length
      · subst hj
        simp at hp
        subst hp
        decide
      · have : tag.length + 1 ≤ j := by omega
        rw [show j - tag.length = (j - tag.length - 1) + 1 by omega] at hp
        simp at hp

theorem closePat_no_overlap (tag : List Char) (htag : ∀ c ∈ tag, wordChar c = true)
    (l : List Char) (j : Nat) (h0 : matchAtCI (closePat tag) l = true)
    (hj : matchAtCI (closePat tag) (l.drop j) = true)
    (hj0 : 0 < j) (hjl : j < (closePat tag).length) : False := by
  have hlen : (closePat tag).length ≤ (l.drop j).length := matchAtCI_length _ _ hj
  have hpos : 0 < (l.drop j).length := by rw [closePat_length] at hlen; omega
  obtain ⟨c, cs, hcons⟩ : ∃ c cs, l.drop j = c :: cs := by
    match hd : l.drop j with
    | [] => rw [hd] at hpos; simp at hpos
    | c :: cs => exact ⟨c, cs, rfl⟩
  rw [hcons, closePat, matchAtCI, Bool.and_eq_true] at hj
  have hc : c.toLower = '<' := by
    have h1 := eq_of_beq hj.1
    have h2 : Char.toLower '<' = '<' := by decide
    rw [h2] at h1
    exact h1.symm
  have hgj : l[j]? = some c := by
    have hh : (l.drop j)[0]? = some c := by rw [hcons]; simp
    rw [List.getElem?_drop] at hh
    simpa using hh
  obtain ⟨p, hp⟩ : ∃ p, (closePat tag)[j]? = some p := by
    rw [List.getElem?_eq_getElem hjl]
    exact ⟨_, rfl⟩
  have hcorr := matchAtCI_corr (closePat tag) l j p c h0 hp hgj
  have hne := closePat_get_ne tag htag j p hj0 hp
  rw [hcorr] at hc
  exact hne hc

theorem lastOccCI_none (pat : List Char) (hne : pat ≠ []) :
    ∀ (l : List Char) (j : Nat), lastOccCI pat l = none →
      matchAtCI pat (l.drop j) = false := by
  intro l
  induction l with
  | nil =>
    intro j _
    rw [List.drop_nil]
    match pat with
    | [] => exact absurd rfl hne
    | p :: ps => rfl
  | cons c r ih =>
    intro j h
    rw [lastOccCI] at h
    match hr : lastOccCI pat r with
    | some i => rw [hr] at h; exact absurd h (by simp)
    | none =>
      rw [hr] at h
      by_cases hm : matchAtCI pat (c :: r) = true
      · rw [if_pos hm] at h; exact absurd h (by simp)
      · have hm2 : matchAtCI pat (c :: r) = false := by
          revert hm; cases matchAtCI pat (c :: r) <;> simp
        match j with
        | 0 => simpa using hm2
        | j + 1 => simpa using ih j hr

theorem findQual_eq_lastOccCI (pat : List Char) (hne : pat ≠ [])
    (hnov : ∀ (l : List Char) (j : Nat), matchAtCI pat l = true →
      matchAtCI pat (l.drop j) = true → 0 < j → j < pat.length → False) :
    ∀ (l : List Char), (∀ c ∈ l, isNL c = false) →
      findQual pat l = lastOccCI pat l := by
  intro l
  induction l with
  | nil => intro _; rfl
  | cons c r ih =>
    intro hnl
    have hnlr : ∀ x ∈ r, isNL x = false := fun x hx => hnl x (by simp [hx])
    have hih := ih hnlr
    have hnld : ∀ x ∈ List.drop pat.length (c :: r), isNL x = false :=
      fun x hx => hnl x (List.mem_of_mem_drop hx)
    rw [findQual, lastOccCI, hih]
    rw [sameLineOcc_noNL pat hne _ hnld]
    have hp1 : 1 ≤ pat.length := by
      match pat with
      | [] => exact absurd rfl hne
      | p :: ps => simp
    match hr : lastOccCI pat r with
    | some i =>
      have hocc : matchAtCI pat (r.drop i) = true := lastOccCI_match pat r i hr
      by_cases hm : matchAtCI pat (c :: r) = true
      · have hocc2 : matchAtCI pat ((c :: r).drop (i + 1)) = true := by simpa using hocc
        have hge : pat.length ≤ i + 1 := by
          by_contra hlt
          exact hnov (c :: r) (i + 1) hm hocc2 (by omega) (by omega)
        have hsome : (findCI pat (List.drop pat.length (c :: r))).isSome = true := by
          rw [findCI_isSome_iff pat hne]
          refine ⟨i + 1 - pat.length, ?_⟩
          rw [List.drop_drop]
          rw [show pat.length + (i + 1 - pat.length) = i + 1 by omega]
          exact hocc2
        simp [hm, hsome]
      · simp [hm]
    | none =>
      by_cases hm : matchAtCI pat (c :: r) = true
      · have hnone : (findCI pat (List.drop pat.length (c :: r))).isSome = false := by
          have hnot : ¬ (findCI pat (List.drop pat.length (c :: r))).isSome = true := by
            rw [findCI_isSome_iff pat hne]
            rintro ⟨m, hmm⟩
            rw [List.drop_drop] at hmm
            rw [show pat.length + m = (pat.length + m - 1) + 1 by omega] at hmm
            simp only [List.drop_succ_cons] at hmm
            rw [lastOccCI_none pat hne r _ hr] at hmm
            exact absurd hmm (by simp)
          revert hnot
          cases (findCI pat (List.drop pat.length (c :: r))).isSome <;> simp
        simp [hm, hnone]
      · simp [hm]

theorem mem_trimL (c : Char) (l : List Char) (h : c ∈ trimL l) : c ∈ l := by
  rw [trimL, List.mem_reverse] at h
  have h2 := (List.dropWhile_sublist (l := (l.dropWhile isWS).reverse) isWS).subset h
  rw [List.mem_reverse] at h2
  exact (List.dropWhile_sublist isWS).subset h2

theorem mem_takeWhile (p : Char → Bool) :
    ∀ (l : List Char) (c : Char), c ∈ l.takeWhile p → p c = true := by
  intro l
  induction l with
  | nil => intro c h; simp [List.takeWhile] at h
  | cons a r ih =>
    intro c h
    rw [List.takeWhile] at h
    by_cases ha : p a = true
    · rw [ha] at h
      simp at h
      rcases h with h | h
      · rw [h]; exact ha
      · exact ih c h
    · have ha2 : p a = false := by revert ha; cases p a <;> simp
      rw [ha2] at h
      simp at h

theorem matchAtCI_of_isPrefixOf : ∀ (p l : List Char), p.isPrefixOf l = true → matchAtCI p l = true := by
  intro p
  induction p with
  | nil => intro l _; rfl
  | cons a ps ih =>
    intro l h
    match l with
    | [] => simp [List.isPrefixOf] at h
    | c :: cs =>
      rw [List.isPrefixOf, Bool.and_eq_true] at h
      obtain rfl : a = c := eq_of_beq h.1
      rw [matchAtCI, Bool.and_eq_true]
      exact ⟨by simp, ih cs h.2⟩

theorem findCI_zero (pat l : List Char) (hne : pat ≠ []) (h : matchAtCI pat l = true) :
    findCI pat l = some 0 := by
  match l with
  | [] =>
    match pat with
    | [] => exact absurd rfl hne
    | p :: ps => rw [matchAtCI] at h; exact absurd h (by simp)
  | c :: cs => rw [findCI, if_pos h]

theorem specBlockExtract_eq (t : List Char) (i : Nat) (hi : blockIdx t = some i)
    (hnl : ∀ c ∈ t, isNL c = false)
    (hsp : (specBlockExtract t).isSome = true) :
    specBlockExtract t = some (blockExtract t i) := by
  simp only [specBlockExtract, hi] at hsp ⊢
  split at hsp
  next rest heq =>
    split at hsp
    next hts => simp at hsp
    next hts =>
      split at hsp
      next o heq2 =>
        have htag : ∀ c ∈ rest.takeWhile wordChar, wordChar c = true :=
          fun c hc => mem_takeWhile wordChar rest c hc
        have hnl2 : ∀ c ∈ trimL (t.drop i), isNL c = false :=
          fun c hc => hnl c (List.mem_of_mem_drop (mem_trimL c _ hc))
        have hfq : findQual (closePat (rest.takeWhile wordChar)) (trimL (t.drop i)) = some o := by
          rw [findQual_eq_lastOccCI (closePat (rest.takeWhile wordChar)) (by simp [closePat])
            (fun l j h0 hj hj0 hjl => closePat_no_overlap _ htag l j h0 hj hj0 hjl)
            (trimL (t.drop i)) hnl2]
          exact heq2
        simp only [blockExtract]
        rw [heq] at hfq ⊢
        simp [hts, hfq]
      next heq2 => simp at hsp
  next heq =>
    simp at hsp

/-- Claim C9, counterexample: on `"<div>a</div>\nb</div>"` the input
contains no DOCTYPE and no `<html`, and contains an allow-listed
block-level tag, yet `extractHTML` cuts at the **first** `</div>` and
returns `"<div>a</div>"`, while the substring to the last occurrence of
the matching closing tag demanded by the claim (computed by
`specBlockExtract`) is the whole string: the dot of the negative
lookahead `(?!.*</div>)` does not cross the newline, so the later
closing tag on the second line does not disqualify the first one. -/
theorem extractHTML_newline_stops_last_closing :
    findCI ("<!DOCTYPE".data) ("<div>a</div>\nb</div>".data) = none ∧
    findCI ("<html".data) ("<div>a</div>\nb</div>".data) = none ∧
    (blockIdx ("<div>a</div>\nb</div>".data)).isSome = true ∧
    extractHTML (some "<div>a</div>\nb</div>") = some "<div>a</div>" ∧
    (specBlockExtract (stripBars (stripMarkers (trimL "<div>a</div>\nb</div>".data)))).map
      String.mk = some "<div>a</div>\nb</div>" :=
  ⟨rfl, rfl, rfl, rfl, rfl⟩

/-- Claim C9, amended: the claimed behaviour holds on single-line
content. For a nonempty input whose cleaned content (trim, tool-marker
and bar stripping) contains no line terminator, no DOCTYPE and no
`<html` occurrence (case-insensitively, so it neither starts with nor
contains them), and on which the spec-side extraction succeeds (a
block-level tag from the allow-list is present and a matching closing
tag exists), `extractHTML` returns exactly the substring from the first
block-level tag to the **last** occurrence of the matching closing tag
of the same tag name, trimmed — `specBlockExtract` — which trims the
trailing commentary. On multi-line content the lookahead only excludes
later closing tags on the same line, and the cut can land earlier. -/
theorem extractHTML_block_last_same_line (s : String) (h0 : ¬(s = ""))
    (hd : findCI ("<!DOCTYPE".data) (stripBars (stripMarkers (trimL s.data))) = none)
    (hh : findCI ("<html".data) (stripBars (stripMarkers (trimL s.data))) = none)
    (hnl : ∀ c ∈ stripBars (stripMarkers (trimL s.data)), isNL c = false)
    (hsp : (specBlockExtract (stripBars (stripMarkers (trimL s.data)))).isSome = true) :
    extractHTML (some s) =
      (specBlockExtract (stripBars (stripMarkers (trimL s.data)))).map String.mk := by
  have hpre : ¬(("<!DOCTYPE".data.isPrefixOf (stripBars (stripMarkers (trimL s.data)))) = true ∨
      ("<html".data.isPrefixOf (stripBars (stripMarkers (trimL s.data)))) = true) := by
    rintro (hA | hA)
    · have h1 := findCI_zero _ _ (by decide) (matchAtCI_of_isPrefixOf _ _ hA)
      rw [hd] at h1
      exact absurd h1 (by simp)
    · have h1 := findCI_zero _ _ (by decide) (matchAtCI_of_isPrefixOf _ _ hA)
      rw [hh] at h1
      exact absurd h1 (by simp)
  cases hbi : blockIdx (stripBars (stripMarkers (trimL s.data))) with
  | none => simp [specBlockExtract, hbi] at hsp
  | some i =>
    have hbridge := specBlockExtract_eq _ i hbi hnl hsp
    rw [hbridge]
    simp only [extractHTML, if_neg h0, if_neg hpre, hd, hh, hbi, Option.map_some]
    rfl

/-- Witness for the amended Claim C9 theorem at the claim's own example
input: every hypothesis holds for
`"<div><p>Content</p></div> some trailing text"`, the theorem applies,
and the extracted value is `"<div><p>Content</p></div>"`. -/
theorem extractHTML_block_last_same_line_witness :
    (¬("<div><p>Content</p></div> some trailing text" = "")) ∧
    (extractHTML (some "<div><p>Content</p></div> some trailing text") =
      (specBlockExtract (stripBars (stripMarkers
        (trimL "<div><p>Content</p></div> some trailing text".data)))).map String.mk) ∧
    extractHTML (some "<div><p>Content</p></div> some trailing text") =
      some "<div><p>Content</p></div>" :=
  ⟨by decide,
   extractHTML_block_last_same_line _ (by decide) (by rfl) (by rfl) (by decide) (by rfl),
   by rfl⟩
